import Mathlib

/-!
Verification of the geometric post-processing layer of a PDF accessibility
pipeline: the overlap resolver over detected layout boxes
(translated from `src/process_bboxes.py`) and the table grid reconstructor
with its line clusterer (translated from `src/process_table.py`).

Modelling conventions:
* Python floats are modelled as rationals, Python ints as integers.
* Python sets of box indices are modelled as `Finset ℕ`, iterated in
  ascending order where the code iterates a set (the order CPython uses for
  compact sets of small nonnegative integers, which is what arises here).
* Fallible operations (list indexing / `min` over an empty sequence, which
  raise in Python) return `Option`; `none` models a raised exception.
* Dict records are modelled as structures; output cell dicts that omit the
  `box`/`bbox` keys carry `none` in those fields.
-/

-- Rational arithmetic is `@[irreducible]` upstream, which blocks `decide`
-- on concrete geometric computations; restore reducibility for this file.
attribute [local semireducible] Rat.add Rat.sub Rat.mul Rat.inv Rat.ofScientific

/-- A detected layout box:
`{"coordinate": [x_min, y_min, x_max, y_max], "label": ..., "score": ...}`. -/
structure Box where
  xMin : ℚ
  yMin : ℚ
  xMax : ℚ
  yMax : ℚ
  label : String
  score : ℚ
deriving DecidableEq

instance : Inhabited Box :=
  ⟨⟨0, 0, 0, 0, "", 0⟩⟩

/-- `bboxes_overlaps` from `process_bboxes.py`: separating-axis test with
strict comparisons. -/
def bboxes_overlaps (bbox1 bbox2 : Box) : Bool :=
  !(decide (bbox1.xMax < bbox2.xMin)  -- box1 is left of box2
    || decide (bbox1.xMin > bbox2.xMax)  -- box1 is right of box2
    || decide (bbox1.yMax < bbox2.yMin)  -- box1 is above box2
    || decide (bbox1.yMin > bbox2.yMax))  -- box1 is below box2

/-- Python's binary `max`: keeps the first argument unless the second is
strictly greater. -/
def pyMax (a b : ℚ) : ℚ :=
  if b > a then b else a

/-- Python's binary `min`: keeps the first argument unless the second is
strictly smaller. -/
def pyMin (a b : ℚ) : ℚ :=
  if b < a then b else a

/-- `bbox_size` (local helper in `_bboxes_overlaping_percentages`):
`max(0, x_max - x_min) * max(0, y_max - y_min)`. -/
def bbox_size (bbox : Box) : ℚ :=
  pyMax 0 (bbox.xMax - bbox.xMin) * pyMax 0 (bbox.yMax - bbox.yMin)

/-- `bboxes_intersection_size` (local helper in
`_bboxes_overlaping_percentages`). -/
def bboxes_intersection_size (bbox1 bbox2 : Box) : ℚ :=
  pyMax 0 (pyMin bbox1.xMax bbox2.xMax - pyMax bbox1.xMin bbox2.xMin) *
    pyMax 0 (pyMin bbox1.yMax bbox2.yMax - pyMax bbox1.yMin bbox2.yMin)

/-- `_bboxes_overlaping_percentages`: how much of each box's own area lies
in the intersection, in percent (0 when the box has no area). -/
def bboxes_overlaping_percentages (bbox1 bbox2 : Box) : ℚ × ℚ :=
  let area_1 := bbox_size bbox1
  let area_2 := bbox_size bbox2
  let intersect_area := bboxes_intersection_size bbox1 bbox2
  (if area_1 > 0 then intersect_area / area_1 * 100 else 0,
   if area_2 > 0 then intersect_area / area_2 * 100 else 0)

/-- `_is_formula_inside_text`: the source returns `False` unconditionally
before the label comparison (the label-checking lines after `return False`
are dead code, per the `TODO PVQ-4049` remark). -/
def is_formula_inside_text (_bbox1 _bbox2 : Box) : Bool :=
  false

/-- `_is_special_case_of_overlap`: ignore the overlap when it is small for
both boxes, or when one box is nested in the other and the pair is a
tolerated formula/text combination. -/
def is_special_case_of_overlap (bbox1 bbox2 : Box) : Bool :=
  let p := bboxes_overlaping_percentages bbox1 bbox2
  let overlap_1 := p.1
  let overlap_2 := p.2
  if overlap_1 < 50 ∧ overlap_2 < 50 then true
  else if ((overlap_1 > 95 ∧ overlap_2 < 75) ∨ (overlap_2 > 95 ∧ overlap_1 < 75)) ∧
      is_formula_inside_text bbox1 bbox2 = true then true
  else false

/-- The condition under which `_find_overlaps` records a pair:
geometric overlap that is not a tolerated special case. -/
def overlap_pair (bbox1 bbox2 : Box) : Bool :=
  bboxes_overlaps bbox1 bbox2 && !(is_special_case_of_overlap bbox1 bbox2)

/-- `_find_overlaps`: all pairs `(index1, index2)` with `index1 < index2`
whose boxes overlap non-specially, in nested-loop order. -/
def find_overlaps (boxes : List Box) : List (ℕ × ℕ) :=
  (List.range boxes.length).flatMap (fun index1 =>
    ((List.range boxes.length).filter (fun index2 => decide (index1 < index2))).filterMap
      (fun index2 =>
        if overlap_pair (boxes.getD index1 default) (boxes.getD index2 default) then
          some (index1, index2)
        else none))

/-- `_convert_overlaps_to_set`: the set of indices occurring in some pair. -/
def convert_overlaps_to_set (overlaps : List (ℕ × ℕ)) : Finset ℕ :=
  overlaps.foldl (fun s pair => insert pair.1 (insert pair.2 s)) ∅

/-- The body of the pair scan in `_group_overlaps`: add to `group` every
index directly touching `box_index` according to `overlaps`. -/
def add_touching_members (box_index : ℕ) (overlaps : List (ℕ × ℕ)) (group : Finset ℕ) :
    Finset ℕ :=
  overlaps.foldl (fun g pair =>
    let g1 := if box_index = pair.1 then insert pair.2 g else g
    if box_index = pair.2 then insert pair.1 g1 else g1) group

/-- Ascending listing of a finite set of naturals, modelling the iteration
order of a CPython `set` of compact small nonnegative ints (hash = value,
slots in value order). -/
def asc_list (s : Finset ℕ) : List ℕ :=
  (List.range (s.sup id + 1)).filter (fun x => decide (x ∈ s))

/-- `asc_list` lists exactly the members of the set. -/
lemma mem_asc_list {s : Finset ℕ} {x : ℕ} : x ∈ asc_list s ↔ x ∈ s := by
  unfold asc_list
  rw [List.mem_filter, List.mem_range]
  constructor
  · rintro ⟨_, hx⟩
    exact of_decide_eq_true hx
  · intro hx
    refine ⟨?_, decide_eq_true hx⟩
    have : id x ≤ s.sup id := Finset.le_sup hx
    simpa using Nat.lt_succ_of_le this

/-- `_get_group_index`: index of the first group containing the searched
element (`none` models the source's `-1`). -/
def get_group_index (searching : ℕ) : List (Finset ℕ) → Option ℕ
  | [] => none
  | g :: gs =>
    if searching ∈ g then some 0 else (get_group_index searching gs).map (· + 1)

/-- The first phase of `_group_overlaps`: for each overlapping box index in
ascending order, extend the first group containing it (creating a new group
when none does) with its direct neighbours. -/
def build_groups (overlaps : List (ℕ × ℕ)) : List ℕ → List (Finset ℕ) → List (Finset ℕ)
  | [], groups => groups
  | box_index :: rest, groups =>
    match get_group_index box_index groups with
    | some group_index =>
      let group := add_touching_members box_index overlaps (groups.getD group_index ∅)
      build_groups overlaps rest (groups.set group_index group)
    | none =>
      let group := add_touching_members box_index overlaps ∅
      build_groups overlaps rest (groups ++ [group])

/-- The inner loop of the merge phase of `_group_overlaps`: scan the later
group indices, absorbing into `group1` every not-yet-removed group it
intersects and marking that index removed. -/
def merge_groups_inner (groups : List (Finset ℕ)) :
    List ℕ → Finset ℕ → List ℕ → Finset ℕ × List ℕ
  | [], group1, removed => (group1, removed)
  | group_index2 :: rest, group1, removed =>
    if group_index2 ∈ removed then merge_groups_inner groups rest group1 removed
    else
      if (group1 ∩ groups.getD group_index2 ∅).Nonempty then
        merge_groups_inner groups rest (group1 ∪ groups.getD group_index2 ∅)
          (removed ++ [group_index2])
      else merge_groups_inner groups rest group1 removed

/-- The outer loop of the merge phase of `_group_overlaps`: one
left-to-right pass collecting the surviving (merged) groups. -/
def merge_groups_outer (groups : List (Finset ℕ)) :
    List ℕ → List ℕ → List (Finset ℕ) → List (Finset ℕ)
  | [], _, unique_groups => unique_groups
  | group_index1 :: rest, removed, unique_groups =>
    if group_index1 ∈ removed then merge_groups_outer groups rest removed unique_groups
    else
      merge_groups_outer groups rest
        (merge_groups_inner groups rest (groups.getD group_index1 ∅) removed).2
        (unique_groups ++ [(merge_groups_inner groups rest (groups.getD group_index1 ∅) removed).1])

/-- `_group_overlaps`: build groups from the overlapping indices (iterated
ascending, as CPython iterates this set of small ints), then merge
intersecting groups in one pass. -/
def group_overlaps (overlapping_bboxes_set : Finset ℕ) (overlaps : List (ℕ × ℕ)) :
    List (Finset ℕ) :=
  let groups := build_groups overlaps (asc_list overlapping_bboxes_set) []
  merge_groups_outer groups (List.range groups.length) [] []

/-- `_is_direct_neightbour` (source spelling): the two indices form a pair
in `overlaps`, in either component order. -/
def is_direct_neightbour (max_score_index member_index : ℕ) (overlaps : List (ℕ × ℕ)) :
    Bool :=
  overlaps.any (fun pair =>
    (decide (pair.1 = max_score_index) && decide (pair.2 = member_index)) ||
    (decide (pair.1 = member_index) && decide (pair.2 = max_score_index)))

/-- `max(group, key=lambda x: float(...))`: Python's `max` keeps the first
maximum under iteration order; on this set of small ints CPython iterates
ascending, so ties resolve to the smallest index. -/
def group_max (boxes : List Box) (g : Finset ℕ) : ℕ :=
  match asc_list g with
  | [] => 0
  | x :: xs =>
    xs.foldl (fun acc y =>
      if (boxes.getD y default).score > (boxes.getD acc default).score then y else acc) x

/-- The fold implementing Python's `max(..., key=...)` returns either its
initial accumulator or a member of the list it folds over. -/
lemma foldl_max_choice (boxes : List Box) :
    ∀ (l : List ℕ) (a : ℕ),
      l.foldl (fun acc y =>
        if (boxes.getD y default).score > (boxes.getD acc default).score then y else acc) a
        = a ∨
      l.foldl (fun acc y =>
        if (boxes.getD y default).score > (boxes.getD acc default).score then y else acc) a
        ∈ l := by
  intro l
  induction l with
  | nil => intro a; exact Or.inl rfl
  | cons z zs ih =>
    intro a
    by_cases hz : (boxes.getD z default).score > (boxes.getD a default).score
    · simp only [List.foldl_cons, if_pos hz]
      rcases ih z with h1 | h1
      · exact Or.inr (by rw [h1]; exact List.mem_cons_self z zs)
      · exact Or.inr (List.mem_cons_of_mem z h1)
    · simp only [List.foldl_cons, if_neg hz]
      rcases ih a with h1 | h1
      · exact Or.inl h1
      · exact Or.inr (List.mem_cons_of_mem z h1)

/-- The selected maximum is a member of the (nonempty) group. -/
lemma group_max_mem (boxes : List Box) {g : Finset ℕ} (h : g.Nonempty) :
    group_max boxes g ∈ g := by
  have hs : asc_list g ≠ [] := by
    intro hnil
    rcases h with ⟨a, ha⟩
    have : a ∈ asc_list g := mem_asc_list.mpr ha
    simp [hnil] at this
  have hmem : group_max boxes g ∈ asc_list g := by
    rcases hx : asc_list g with _ | ⟨x, xs⟩
    · exact absurd hx hs
    · have hgm : group_max boxes g = xs.foldl (fun acc y =>
          if (boxes.getD y default).score > (boxes.getD acc default).score then y else acc)
          x := by
        unfold group_max
        rw [hx]
      rw [hgm]
      rcases foldl_max_choice boxes xs x with h1 | h1
      · rw [h1]; exact List.mem_cons_self x xs
      · exact List.mem_cons_of_mem x h1
  exact mem_asc_list.mp hmem

/-- `_process_group`: repeatedly take the highest-score member, drop its
direct neighbours into the removed set, keep the max itself, and recurse on
the rest. -/
def process_group (boxes : List Box) (overlaps : List (ℕ × ℕ)) (g : Finset ℕ) : Finset ℕ :=
  if h : g.Nonempty then
    let m := group_max boxes g
    let removedNow := g.filter (fun x => x ≠ m ∧ is_direct_neightbour m x overlaps = true)
    let toFurther := g.filter (fun x => x ≠ m ∧ ¬ is_direct_neightbour m x overlaps = true)
    have hm : m ∈ g := group_max_mem boxes h
    removedNow ∪ process_group boxes overlaps toFurther
  else ∅
termination_by g.card
decreasing_by
  refine Finset.card_lt_card ⟨Finset.filter_subset _ _, fun hsub => ?_⟩
  have := hsub hm
  simp at this

/-- `_get_removing_indexes`: union of the removals of every group. -/
def get_removing_indexes (boxes : List Box) (groups : List (Finset ℕ))
    (overlaps : List (ℕ × ℕ)) : Finset ℕ :=
  groups.foldl (fun acc g => acc ∪ process_group boxes overlaps g) ∅

/-- `process_bboxes`: find overlaps, group them, gather the indices to
remove, and keep every input box whose index was not removed (in order). -/
def process_bboxes (boxes : List Box) : List Box :=
  let overlaps := find_overlaps boxes
  let overlapping_bboxes_set := convert_overlaps_to_set overlaps
  let groups := group_overlaps overlapping_bboxes_set overlaps
  let removing := get_removing_indexes boxes groups overlaps
  ((List.range boxes.length).filter (fun index => decide (index ∉ removing))).map
    (fun index => boxes.getD index default)

/-! ## Table grid reconstructor (`process_table.py`) -/

/-- Python `round` on an exact rational: round half to even. -/
def pyRound (q : ℚ) : ℤ :=
  let f := ⌊q⌋
  let r := q - (f : ℚ)
  if r < 1 / 2 then f
  else if 1 / 2 < r then f + 1
  else if Even f then f else f + 1

/-- Python `int(...)` on a rational: truncation toward zero. -/
def pyInt (q : ℚ) : ℤ :=
  q.num.tdiv (q.den : ℤ)

/-- Python `range(a, b)` over integers. -/
def pyRange (a b : ℤ) : List ℤ :=
  (List.range (b - a).toNat).map (fun i : ℕ => a + (i : ℤ))

/-- Resolve a Python list index (negative indices count from the end);
`none` models an `IndexError`. -/
def pyIndex (len : ℕ) (i : ℤ) : Option ℕ :=
  if 0 ≤ i ∧ i < (len : ℤ) then some i.toNat
  else if -(len : ℤ) ≤ i ∧ i < 0 then some ((len : ℤ) + i).toNat
  else none

/-- Python `l[i]` (read). -/
def pyGet {α : Type} (l : List α) (i : ℤ) : Option α :=
  (pyIndex l.length i).bind (fun n => l.get? n)

/-- Python `l[i] = a` (write). -/
def pySet {α : Type} (l : List α) (i : ℤ) (a : α) : Option (List α) :=
  (pyIndex l.length i).map (fun n => l.set n a)

/-- A detected table cell from the cell recognizer, `{"coordinate": [...]}`;
the claims only concern syntactically valid cells whose coordinate list has
four entries `[x_min, y_min, x_max, y_max]`. -/
structure TCell where
  coordinate : List ℚ
deriving DecidableEq

/-- An output cell record.  The `box`/`bbox` fields are `none` on the
synthesized placeholder dicts, which omit those keys in the source. -/
structure CellRecord where
  row : ℤ
  column : ℤ
  row_span : ℤ
  column_span : ℤ
  box : Option (List ℤ)
  bbox : Option (List ℚ)
deriving DecidableEq

/-- The `{rows, columns, cells}` dict returned by
`create_custom_result_from_paddlex_cell_result`. -/
structure TableResult where
  rows : ℤ
  columns : ℤ
  cells : List CellRecord
deriving DecidableEq

/-- `_create_lines`: collect `round(coordinate[min_index])` and
`round(coordinate[max_index])` of every cell, skipping exact duplicates,
in first-appearance order. -/
def create_lines (boxes : List TCell) (min_index max_index : ℕ) : List ℤ :=
  boxes.foldl (fun lines box =>
    let min_line := pyRound (box.coordinate.getD min_index 0)
    let max_line := pyRound (box.coordinate.getD max_index 0)
    let lines1 := if min_line ∈ lines then lines else lines ++ [min_line]
    if max_line ∈ lines1 then lines1 else lines1 ++ [max_line]) []

/-- The scan loop of `_clean_lines`: keep a line only when it exceeds the
running previous value by more than 2; the previous value is updated to
every scanned line. -/
def clean_lines_scan (previous_line : ℤ) : List ℤ → List ℤ
  | [] => []
  | line :: rest =>
    if line - previous_line > 2 then line :: clean_lines_scan line rest
    else clean_lines_scan line rest

/-- `_clean_lines`: sort ascending, then drop lines within 2 pixels of the
previously scanned line (`previous_line` starts at -10).  Insertion sort
produces the same list as Python's `list.sort` (the ascending permutation
of a list of integers is unique). -/
def clean_lines (lines : List ℤ) : List ℤ :=
  clean_lines_scan (-10) (List.insertionSort (· ≤ ·) lines)

/-- `_find_line_index`: `min(range(len(lines)), key=lambda i: abs(...))`.
Python's `min` keeps the first minimum; it raises on an empty list
(`none` here). -/
def find_line_index (target_line : ℤ) (lines : List ℤ) : Option ℕ :=
  match lines with
  | [] => none
  | _ :: _ => some ((List.range lines.length).foldl
      (fun acc i =>
        if |lines.getD i 0 - target_line| < |lines.getD acc 0 - target_line| then i
        else acc) 0)

/-- `_calculate_indexes_position_span`: returns
`(min_index, max_index, position, span)`. -/
def calculate_indexes_position_span (minC maxC : ℤ) (lines : List ℤ) :
    Option (ℕ × ℕ × ℤ × ℤ) := do
  let min_index ← find_line_index minC lines
  let max_index ← find_line_index maxC lines
  pure (min_index, max_index, (min_index : ℤ) + 1, (max_index : ℤ) - (min_index : ℤ))

/-- The per-cell body of the loop in
`create_custom_result_from_paddlex_cell_result`: compute row/column
position and span and the grid-snapped boxes.  The grid-line lookups
`lines[index]` use indices returned by `_find_line_index`, which are always
in bounds, hence plain `getD`. -/
def cell_record_of_box (table_min_x table_min_y : ℚ) (row_lines column_lines : List ℤ)
    (box : TCell) : Option CellRecord := do
  let min_x := box.coordinate.getD 0 0
  let min_y := box.coordinate.getD 1 0
  let max_x := box.coordinate.getD 2 0
  let max_y := box.coordinate.getD 3 0
  let r ← calculate_indexes_position_span (pyInt min_y) (pyInt max_y) row_lines
  let c ← calculate_indexes_position_span (pyInt min_x) (pyInt max_x) column_lines
  let row_min_index := r.1
  let row_max_index := r.2.1
  let row_number := r.2.2.1
  let row_span := r.2.2.2
  let column_min_index := c.1
  let column_max_index := c.2.1
  let column_number := c.2.2.1
  let column_span := c.2.2.2
  let bboxT : List ℤ :=
    [column_lines.getD column_min_index 0, row_lines.getD row_min_index 0,
     column_lines.getD column_max_index 0, row_lines.getD row_max_index 0]
  pure
    { row := row_number
      column := column_number
      row_span := row_span
      column_span := column_span
      box := some bboxT
      bbox := some
        [table_min_x + (bboxT.getD 0 0 : ℚ), table_min_y + (bboxT.getD 1 0 : ℚ),
         table_min_x + (bboxT.getD 2 0 : ℚ), table_min_y + (bboxT.getD 3 0 : ℚ)] }

/-- The placeholder dict `{"row": row, "column": column, "row_span": 0,
"column_span": 0}` used for missing cells. -/
def placeholder_cell (row column : ℤ) : CellRecord :=
  { row := row, column := column, row_span := 0, column_span := 0,
    box := none, bbox := none }

/-- One write of `_fill_missing_cells_and_sort`'s fill loop:
`output_cells[cell["row"] - 1][cell["column"] - 1] = cell`. -/
def fill_missing_step (grid : List (List CellRecord)) (cell : CellRecord) :
    Option (List (List CellRecord)) := do
  let row_list ← pyGet grid (cell.row - 1)
  let row_list2 ← pySet row_list (cell.column - 1) cell
  pySet grid (cell.row - 1) row_list2

/-- `_fill_missing_cells_and_sort`: build a `rows × columns` grid of
placeholders, overwrite the positions of detected cells, and flatten
row-major. -/
def fill_missing_cells_and_sort (cells : List CellRecord)
    (number_rows number_columns : ℤ) : Option (List CellRecord) :=
  if cells = [] then some []
  else do
    let output_cells : List (List CellRecord) :=
      (pyRange 1 (number_rows + 1)).map (fun row =>
        (pyRange 1 (number_columns + 1)).map (fun column => placeholder_cell row column))
    let grid ← cells.foldlM fill_missing_step output_cells
    pure grid.flatten

/-- `_create_table_row_and_column_lines`: row lines from coordinate
indices 1 and 3, column lines from indices 0 and 2, both cleaned. -/
def create_table_row_and_column_lines (cell_boxes : List TCell) : List ℤ × List ℤ :=
  (clean_lines (create_lines cell_boxes 1 3), clean_lines (create_lines cell_boxes 0 2))

/-- `create_custom_result_from_paddlex_cell_result` over the `"boxes"` list
of the cell-recognition result (an absent `"boxes"` key is the empty list)
and the table bbox `coordinate`.  `none` models a raised exception. -/
def create_custom_result_from_paddlex_cell_result (cell_boxes : List TCell)
    (coordinate : List ℚ) : Option TableResult :=
  if cell_boxes.length = 0 then some { rows := 0, columns := 0, cells := [] }
  else do
    let lines := create_table_row_and_column_lines cell_boxes
    let row_lines := lines.1
    let column_lines := lines.2
    let number_rows : ℤ := (row_lines.length : ℤ) - 1
    let number_columns : ℤ := (column_lines.length : ℤ) - 1
    let table_min_x := coordinate.getD 0 0
    let table_min_y := coordinate.getD 1 0
    let cells_with_data ← cell_boxes.mapM
      (cell_record_of_box table_min_x table_min_y row_lines column_lines)
    let cells ← fill_missing_cells_and_sort cells_with_data number_rows number_columns
    pure { rows := number_rows, columns := number_columns, cells := cells }

/-! ## General lemmas about the embedding -/

/-- Reading every index of a list back in order reproduces the list. -/
lemma map_getD_range {α : Type} (l : List α) (d : α) :
    (List.range l.length).map (fun i => l.getD i d) = l := by
  induction l with
  | nil => rfl
  | cons a l ih =>
    show (List.range (l.length + 1)).map _ = _
    rw [List.range_succ_eq_map, List.map_cons, List.map_map]
    have hfun : ((fun i => (a :: l).getD i d) ∘ Nat.succ) = fun i => l.getD i d := by
      funext i
      rfl
    rw [hfun, ih]
    rfl

/-- Membership in `find_overlaps`: exactly the in-range index pairs
`(i, j)` with `i < j` whose boxes overlap non-specially. -/
lemma mem_find_overlaps {boxes : List Box} {p : ℕ × ℕ} :
    p ∈ find_overlaps boxes ↔
      p.1 < p.2 ∧ p.2 < boxes.length ∧
        overlap_pair (boxes.getD p.1 default) (boxes.getD p.2 default) = true := by
  unfold find_overlaps
  constructor
  · intro hp
    rcases List.mem_flatMap.mp hp with ⟨i1, _, hmem⟩
    rcases List.mem_filterMap.mp hmem with ⟨i2, hi2, heq⟩
    rcases List.mem_filter.mp hi2 with ⟨hi2r, hlt⟩
    by_cases hc : overlap_pair (boxes.getD i1 default) (boxes.getD i2 default) = true
    · rw [if_pos hc] at heq
      cases heq
      exact ⟨of_decide_eq_true hlt, List.mem_range.mp hi2r, hc⟩
    · rw [if_neg hc] at heq
      cases heq
  · rintro ⟨h12, h2, hov⟩
    refine List.mem_flatMap.mpr ⟨p.1, List.mem_range.mpr (lt_trans h12 h2), ?_⟩
    refine List.mem_filterMap.mpr ⟨p.2, List.mem_filter.mpr
      ⟨List.mem_range.mpr h2, decide_eq_true h12⟩, ?_⟩
    rw [if_pos hov]

/-- When no overlap pair survives, nothing is removed and `process_bboxes`
returns its input unchanged. -/
lemma process_bboxes_eq_self_of_no_overlaps {boxes : List Box}
    (h : find_overlaps boxes = []) : process_bboxes boxes = boxes := by
  have hrem : get_removing_indexes boxes
      (group_overlaps (convert_overlaps_to_set []) []) [] = ∅ := rfl
  simp only [process_bboxes, h, hrem]
  have hfilter : (List.range boxes.length).filter (fun index => decide (index ∉ (∅ : Finset ℕ)))
      = List.range boxes.length := by
    apply List.filter_eq_self.mpr
    intro a _
    simp
  rw [hfilter, map_getD_range]

/-! ## Lemmas about the grouping phases -/

/-- Characterization of the accumulator fold in `convert_overlaps_to_set`. -/
lemma mem_foldl_insert_pairs :
    ∀ (overlaps : List (ℕ × ℕ)) (s : Finset ℕ) (x : ℕ),
      (x ∈ overlaps.foldl (fun s pair => insert pair.1 (insert pair.2 s)) s ↔
        x ∈ s ∨ ∃ p ∈ overlaps, x = p.1 ∨ x = p.2) := by
  intro overlaps
  induction overlaps with
  | nil => intro s x; simp
  | cons p ps ih =>
    intro s x
    rw [List.foldl_cons, ih]
    constructor
    · rintro (h | ⟨q, hq, hx⟩)
      · rcases Finset.mem_insert.mp h with rfl | h2
        · exact Or.inr ⟨p, List.mem_cons_self p ps, Or.inl rfl⟩
        · rcases Finset.mem_insert.mp h2 with rfl | h3
          · exact Or.inr ⟨p, List.mem_cons_self p ps, Or.inr rfl⟩
          · exact Or.inl h3
      · exact Or.inr ⟨q, List.mem_cons_of_mem p hq, hx⟩
    · rintro (h | ⟨q, hq, hx⟩)
      · exact Or.inl (Finset.mem_insert_of_mem (Finset.mem_insert_of_mem h))
      · rcases List.mem_cons.mp hq with rfl | hq2
        · rcases hx with rfl | rfl
          · exact Or.inl (Finset.mem_insert_self _ _)
          · exact Or.inl (Finset.mem_insert_of_mem (Finset.mem_insert_self _ _))
        · exact Or.inr ⟨q, hq2, hx⟩

/-- Membership in `convert_overlaps_to_set`: exactly the pair endpoints. -/
lemma mem_convert_overlaps_to_set {overlaps : List (ℕ × ℕ)} {x : ℕ} :
    x ∈ convert_overlaps_to_set overlaps ↔ ∃ p ∈ overlaps, x = p.1 ∨ x = p.2 := by
  unfold convert_overlaps_to_set
  rw [mem_foldl_insert_pairs]
  simp

/-- Membership after the pair scan of `_group_overlaps`: the original
members plus the direct neighbours of `box_index`. -/
lemma mem_add_touching_members (box_index : ℕ) :
    ∀ (overlaps : List (ℕ × ℕ)) (group : Finset ℕ) (x : ℕ),
      x ∈ add_touching_members box_index overlaps group ↔
        x ∈ group ∨ (box_index, x) ∈ overlaps ∨ (x, box_index) ∈ overlaps := by
  intro overlaps
  induction overlaps with
  | nil => intro group x; simp [add_touching_members]
  | cons p ps ih =>
    intro group x
    have hstep : add_touching_members box_index (p :: ps) group =
        add_touching_members box_index ps
          (if box_index = p.2 then
            insert p.1 (if box_index = p.1 then insert p.2 group else group)
           else (if box_index = p.1 then insert p.2 group else group)) := rfl
    rw [hstep, ih]
    have hstepmem : ∀ y : ℕ,
        (y ∈ (if box_index = p.2 then
            insert p.1 (if box_index = p.1 then insert p.2 group else group)
          else (if box_index = p.1 then insert p.2 group else group))) ↔
        (y ∈ group ∨ (box_index = p.1 ∧ y = p.2) ∨ (box_index = p.2 ∧ y = p.1)) := by
      intro y
      by_cases h2 : box_index = p.2
      · rw [if_pos h2]
        by_cases h1 : box_index = p.1
        · rw [if_pos h1]
          simp only [Finset.mem_insert]
          tauto
        · rw [if_neg h1]
          simp only [Finset.mem_insert]
          tauto
      · rw [if_neg h2]
        by_cases h1 : box_index = p.1
        · rw [if_pos h1]
          simp only [Finset.mem_insert]
          tauto
        · rw [if_neg h1]
          tauto
    rw [hstepmem]
    simp [List.mem_cons, Prod.ext_iff]
    tauto

/-- `get_group_index` finds the first group containing the element when one
exists, and its result is a valid index into the list. -/
lemma get_group_index_spec (v : ℕ) :
    ∀ gs : List (Finset ℕ), (∃ g ∈ gs, v ∈ g) →
      ∃ gi, get_group_index v gs = some gi ∧ gi < gs.length ∧ v ∈ gs.getD gi ∅ := by
  intro gs
  induction gs with
  | nil =>
    rintro ⟨g, hg, _⟩
    cases hg
  | cons g0 gs ih =>
    rintro ⟨g, hg, hv⟩
    by_cases h0 : v ∈ g0
    · exact ⟨0, by simp [get_group_index, h0], Nat.succ_pos _, by simpa using h0⟩
    · have hex : ∃ g ∈ gs, v ∈ g := by
        rcases List.mem_cons.mp hg with rfl | h
        · exact absurd hv h0
        · exact ⟨g, h, hv⟩
      rcases ih hex with ⟨gi, hgi, hlt, hmem⟩
      refine ⟨gi + 1, ?_, by simpa using Nat.succ_lt_succ hlt, by simpa using hmem⟩
      simp [get_group_index, h0, hgi]

/-- A successful `get_group_index` result is a valid index of a group
containing the element. -/
lemma get_group_index_some (v : ℕ) :
    ∀ (gs : List (Finset ℕ)) (gi : ℕ), get_group_index v gs = some gi →
      gi < gs.length ∧ v ∈ gs.getD gi ∅ := by
  intro gs
  induction gs with
  | nil =>
    intro gi h
    cases h
  | cons g0 gs ih =>
    intro gi h
    by_cases h0 : v ∈ g0
    · rw [get_group_index, if_pos h0] at h
      cases h
      exact ⟨Nat.succ_pos _, by simpa using h0⟩
    · rw [get_group_index, if_neg h0] at h
      rcases Option.map_eq_some'.mp h with ⟨gj, hgj, hgi⟩
      subst hgi
      exact ⟨by simpa using Nat.succ_lt_succ (ih gj hgj).1, by simpa using (ih gj hgj).2⟩

/-- Replacing a list entry by a superset of its old value keeps every old
entry below some entry of the new list. -/
lemma exists_superset_mem_set {gs : List (Finset ℕ)} {gi : ℕ} {t : Finset ℕ}
    (hlt : gi < gs.length) (hsub : gs.getD gi ∅ ⊆ t) :
    ∀ g ∈ gs, ∃ g2 ∈ gs.set gi t, g ⊆ g2 := by
  intro g hg
  rcases List.mem_iff_getElem.mp hg with ⟨k, hk, rfl⟩
  by_cases hki : k = gi
  · subst hki
    refine ⟨t, ?_, ?_⟩
    · have hlen : k < (gs.set k t).length := by simpa using hk
      exact List.mem_iff_getElem.mpr ⟨k, hlen, List.getElem_set_self hlen⟩
    · have hd : gs.getD k ∅ = gs[k] := by
        rw [List.getD_eq_getElem?_getD, List.getElem?_eq_getElem hk]
        rfl
      exact hd ▸ hsub
  · refine ⟨gs[k], ?_, subset_rfl⟩
    have hlen : k < (gs.set gi t).length := by simpa using hk
    exact List.mem_iff_getElem.mpr ⟨k, hlen, List.getElem_set_ne (Ne.symm hki) hlen⟩

/-- Appending keeps every old entry present. -/
lemma exists_superset_mem_append {gs : List (Finset ℕ)} {t : Finset ℕ} :
    ∀ g ∈ gs, ∃ g2 ∈ gs ++ [t], g ⊆ g2 := by
  intro g hg
  exact ⟨g, List.mem_append_left _ hg, subset_rfl⟩

/-- Core invariant of the first phase of `_group_overlaps`: once the scan
list is exhausted, the two endpoints of every overlap pair lie in a common
group — provided that for every pair, each endpoint is either still to be
scanned or its partner is already in some group, and pairs with both
endpoints scanned already share a group. -/
lemma build_groups_pairs (overlaps : List (ℕ × ℕ)) :
    ∀ (todo : List ℕ) (groups : List (Finset ℕ)),
      (∀ p ∈ overlaps, (p.1 ∉ todo → ∃ g ∈ groups, p.2 ∈ g) ∧
        (p.2 ∉ todo → ∃ g ∈ groups, p.1 ∈ g)) →
      (∀ p ∈ overlaps, p.1 ∉ todo → p.2 ∉ todo → ∃ g ∈ groups, p.1 ∈ g ∧ p.2 ∈ g) →
      ∀ p ∈ overlaps, ∃ g ∈ build_groups overlaps todo groups, p.1 ∈ g ∧ p.2 ∈ g := by
  intro todo
  induction todo with
  | nil =>
    intro groups _ h2 p hp
    exact h2 p hp (by simp) (by simp)
  | cons v rest ih =>
    intro groups h1 h2 p hp
    show ∃ g ∈ build_groups overlaps (v :: rest) groups, p.1 ∈ g ∧ p.2 ∈ g
    unfold build_groups
    rcases hgi : get_group_index v groups with _ | gi
    · -- v is in no current group: append a fresh group of v's neighbours
      refine ih _ ?_ ?_ p hp
      · intro q hq
        constructor
        · intro hq1
          by_cases hqv : q.1 = v
          · refine ⟨add_touching_members v overlaps ∅, List.mem_append_right _ (by simp), ?_⟩
            rw [mem_add_touching_members]
            refine Or.inr (Or.inl ?_)
            rw [← hqv]
            exact hq
          · have : q.1 ∉ v :: rest := by
              intro hmem
              rcases List.mem_cons.mp hmem with h | h
              · exact hqv h
              · exact hq1 h
            rcases ((h1 q hq).1 this) with ⟨g, hg, hmem⟩
            rcases exists_superset_mem_append g hg with ⟨g2, hg2, hsub⟩
            exact ⟨g2, hg2, hsub hmem⟩
        · intro hq2
          by_cases hqv : q.2 = v
          · refine ⟨add_touching_members v overlaps ∅, List.mem_append_right _ (by simp), ?_⟩
            rw [mem_add_touching_members]
            refine Or.inr (Or.inr ?_)
            rw [← hqv]
            exact hq
          · have : q.2 ∉ v :: rest := by
              intro hmem
              rcases List.mem_cons.mp hmem with h | h
              · exact hqv h
              · exact hq2 h
            rcases ((h1 q hq).2 this) with ⟨g, hg, hmem⟩
            rcases exists_superset_mem_append g hg with ⟨g2, hg2, hsub⟩
            exact ⟨g2, hg2, hsub hmem⟩
      · intro q hq hq1 hq2
        by_cases hq1v : q.1 = v
        · -- v itself was just scanned; its partner q.2 is a direct neighbour
          by_cases hq2v : q.2 = v
          · refine ⟨add_touching_members v overlaps ∅, List.mem_append_right _ (by simp), ?_, ?_⟩
            · rw [mem_add_touching_members]
              refine Or.inr (Or.inr ?_)
              rw [← hq2v]
              exact hq
            · rw [mem_add_touching_members]
              refine Or.inr (Or.inl ?_)
              rw [← hq1v]
              exact hq
          · -- q.2 was scanned before; v was in no group then, contradiction?
            -- No: h1 gives q.1 = v in some group, contradicting `none`.
            have hq2r : q.2 ∉ v :: rest := by
              intro hmem
              rcases List.mem_cons.mp hmem with h | h
              · exact hq2v h
              · exact hq2 h
            rcases (h1 q hq).2 hq2r with ⟨g, hg, hmem⟩
            rw [hq1v] at hmem
            rcases get_group_index_spec v groups ⟨g, hg, hmem⟩ with ⟨gi, hgi2, _, _⟩
            rw [hgi] at hgi2
            cases hgi2
        · by_cases hq2v : q.2 = v
          · have hq1r : q.1 ∉ v :: rest := by
              intro hmem
              rcases List.mem_cons.mp hmem with h | h
              · exact hq1v h
              · exact hq1 h
            rcases (h1 q hq).1 hq1r with ⟨g, hg, hmem⟩
            rw [hq2v] at hmem
            rcases get_group_index_spec v groups ⟨g, hg, hmem⟩ with ⟨gi, hgi2, _, _⟩
            rw [hgi] at hgi2
            cases hgi2
          · have hq1r : q.1 ∉ v :: rest := by
              intro hmem
              rcases List.mem_cons.mp hmem with h | h
              · exact hq1v h
              · exact hq1 h
            have hq2r : q.2 ∉ v :: rest := by
              intro hmem
              rcases List.mem_cons.mp hmem with h | h
              · exact hq2v h
              · exact hq2 h
            rcases h2 q hq hq1r hq2r with ⟨g, hg, hm1, hm2⟩
            rcases exists_superset_mem_append g hg with ⟨g2, hg2, hsub⟩
            exact ⟨g2, hg2, hsub hm1, hsub hm2⟩
    · -- v is already in the group at index gi, which absorbs its neighbours
      rcases get_group_index_some v groups gi hgi with ⟨hlt, hvmem⟩
      have hbase : groups.getD gi ∅ ⊆ add_touching_members v overlaps (groups.getD gi ∅) := by
        intro x hx
        rw [mem_add_touching_members]
        exact Or.inl hx
      have hgrown : add_touching_members v overlaps (groups.getD gi ∅) ∈
          groups.set gi (add_touching_members v overlaps (groups.getD gi ∅)) := by
        have hlen : gi < (groups.set gi (add_touching_members v overlaps
            (groups.getD gi ∅))).length := by simpa using hlt
        exact List.mem_iff_getElem.mpr ⟨gi, hlen, List.getElem_set_self hlen⟩
      refine ih _ ?_ ?_ p hp
      · intro q hq
        constructor
        · intro hq1
          by_cases hqv : q.1 = v
          · refine ⟨_, hgrown, ?_⟩
            rw [mem_add_touching_members]
            refine Or.inr (Or.inl ?_)
            rw [← hqv]
            exact hq
          · have : q.1 ∉ v :: rest := by
              intro hmem
              rcases List.mem_cons.mp hmem with h | h
              · exact hqv h
              · exact hq1 h
            rcases (h1 q hq).1 this with ⟨g, hg, hmem⟩
            rcases exists_superset_mem_set hlt hbase g hg with ⟨g2, hg2, hsub⟩
            exact ⟨g2, hg2, hsub hmem⟩
        · intro hq2
          by_cases hqv : q.2 = v
          · refine ⟨_, hgrown, ?_⟩
            rw [mem_add_touching_members]
            refine Or.inr (Or.inr ?_)
            rw [← hqv]
            exact hq
          · have : q.2 ∉ v :: rest := by
              intro hmem
              rcases List.mem_cons.mp hmem with h | h
              · exact hqv h
              · exact hq2 h
            rcases (h1 q hq).2 this with ⟨g, hg, hmem⟩
            rcases exists_superset_mem_set hlt hbase g hg with ⟨g2, hg2, hsub⟩
            exact ⟨g2, hg2, hsub hmem⟩
      · intro q hq hq1 hq2
        by_cases hq1v : q.1 = v
        · refine ⟨_, hgrown, ?_, ?_⟩
          · rw [hq1v, mem_add_touching_members]
            exact Or.inl hvmem
          · rw [mem_add_touching_members]
            refine Or.inr (Or.inl ?_)
            rw [← hq1v]
            exact hq
        · by_cases hq2v : q.2 = v
          · refine ⟨_, hgrown, ?_, ?_⟩
            · rw [mem_add_touching_members]
              refine Or.inr (Or.inr ?_)
              rw [← hq2v]
              exact hq
            · rw [hq2v, mem_add_touching_members]
              exact Or.inl hvmem
          · have hq1r : q.1 ∉ v :: rest := by
              intro hmem
              rcases List.mem_cons.mp hmem with h | h
              · exact hq1v h
              · exact hq1 h
            have hq2r : q.2 ∉ v :: rest := by
              intro hmem
              rcases List.mem_cons.mp hmem with h | h
              · exact hq2v h
              · exact hq2 h
            rcases h2 q hq hq1r hq2r with ⟨g, hg, hm1, hm2⟩
            rcases exists_superset_mem_set hlt hbase g hg with ⟨g2, hg2, hsub⟩
            exact ⟨g2, hg2, hsub hm1, hsub hm2⟩

/-- The accumulating group only grows through the inner merge scan. -/
lemma merge_groups_inner_mono (groups : List (Finset ℕ)) :
    ∀ (idxs : List ℕ) (group1 : Finset ℕ) (removed : List ℕ),
      group1 ⊆ (merge_groups_inner groups idxs group1 removed).1 := by
  intro idxs
  induction idxs with
  | nil =>
    intro g r
    exact subset_rfl
  | cons i2 rest ih =>
    intro g r
    show g ⊆ (merge_groups_inner groups (i2 :: rest) g r).1
    unfold merge_groups_inner
    by_cases hr : i2 ∈ r
    · rw [if_pos hr]
      exact ih g r
    · rw [if_neg hr]
      by_cases hn : (g ∩ groups.getD i2 ∅).Nonempty
      · rw [if_pos hn]
        exact subset_trans Finset.subset_union_left (ih _ _)
      · rw [if_neg hn]
        exact ih g r

/-- Any index the inner merge scan marks removed was either already removed
or belongs to a group that got absorbed into the accumulating group. -/
lemma merge_groups_inner_removed (groups : List (Finset ℕ)) :
    ∀ (idxs : List ℕ) (group1 : Finset ℕ) (removed : List ℕ) (i : ℕ),
      i ∈ (merge_groups_inner groups idxs group1 removed).2 →
      i ∈ removed ∨ groups.getD i ∅ ⊆ (merge_groups_inner groups idxs group1 removed).1 := by
  intro idxs
  induction idxs with
  | nil =>
    intro g r i hi
    exact Or.inl hi
  | cons i2 rest ih =>
    intro g r i hi
    rw [show merge_groups_inner groups (i2 :: rest) g r =
      (if i2 ∈ r then merge_groups_inner groups rest g r
       else if (g ∩ groups.getD i2 ∅).Nonempty then
         merge_groups_inner groups rest (g ∪ groups.getD i2 ∅) (r ++ [i2])
       else merge_groups_inner groups rest g r) from rfl] at hi ⊢
    by_cases hr : i2 ∈ r
    · rw [if_pos hr] at hi ⊢
      exact ih g r i hi
    · rw [if_neg hr] at hi ⊢
      by_cases hn : (g ∩ groups.getD i2 ∅).Nonempty
      · rw [if_pos hn] at hi ⊢
        rcases ih (g ∪ groups.getD i2 ∅) (r ++ [i2]) i hi with h | h
        · rcases List.mem_append.mp h with h2 | h2
          · exact Or.inl h2
          · have : i = i2 := by simpa using h2
            subst this
            refine Or.inr (subset_trans ?_ (merge_groups_inner_mono groups rest _ _))
            exact Finset.subset_union_right
        · exact Or.inr h
      · rw [if_neg hn] at hi ⊢
        exact ih g r i hi

/-- The outer merge pass only appends to the accumulated unique groups. -/
lemma merge_groups_outer_mem_unique (groups : List (Finset ℕ)) :
    ∀ (idxs : List ℕ) (removed : List ℕ) (unique_groups : List (Finset ℕ)),
      ∀ u ∈ unique_groups, u ∈ merge_groups_outer groups idxs removed unique_groups := by
  intro idxs
  induction idxs with
  | nil =>
    intro r uq u hu
    exact hu
  | cons i1 rest ih =>
    intro r uq u hu
    show u ∈ merge_groups_outer groups (i1 :: rest) r uq
    unfold merge_groups_outer
    by_cases hr : i1 ∈ r
    · rw [if_pos hr]
      exact ih r uq u hu
    · rw [if_neg hr]
      exact ih _ _ u (List.mem_append_left _ hu)

/-- Every group whose index is scanned and not yet removed ends up inside
some group of the outer merge pass's output. -/
lemma merge_groups_outer_cover (groups : List (Finset ℕ)) :
    ∀ (idxs : List ℕ) (removed : List ℕ) (unique_groups : List (Finset ℕ)) (i : ℕ),
      i ∈ idxs → i ∉ removed →
      ∃ u ∈ merge_groups_outer groups idxs removed unique_groups, groups.getD i ∅ ⊆ u := by
  intro idxs
  induction idxs with
  | nil =>
    intro r uq i hi
    cases hi
  | cons i1 rest ih =>
    intro r uq i hi hir
    show ∃ u ∈ merge_groups_outer groups (i1 :: rest) r uq, groups.getD i ∅ ⊆ u
    unfold merge_groups_outer
    by_cases hr : i1 ∈ r
    · rw [if_pos hr]
      rcases List.mem_cons.mp hi with rfl | hi2
      · exact absurd hr hir
      · exact ih r uq i hi2 hir
    · rw [if_neg hr]
      rcases List.mem_cons.mp hi with rfl | hi2
      · refine ⟨(merge_groups_inner groups rest (groups.getD i ∅) r).1, ?_, ?_⟩
        · exact merge_groups_outer_mem_unique groups rest _ _ _
            (List.mem_append_right _ (by simp))
        · exact merge_groups_inner_mono groups rest _ _
      · by_cases hir2 : i ∈ (merge_groups_inner groups rest (groups.getD i1 ∅) r).2
        · rcases merge_groups_inner_removed groups rest (groups.getD i1 ∅) r i hir2 with h | h
          · exact absurd h hir
          · refine ⟨(merge_groups_inner groups rest (groups.getD i1 ∅) r).1, ?_, h⟩
            exact merge_groups_outer_mem_unique groups rest _ _ _
              (List.mem_append_right _ (by simp))
        · exact ih _ _ i hi2 hir2

/-- Every overlap pair's endpoints lie together in at least one of the
groups returned by `_group_overlaps`. -/
lemma group_overlaps_pair_cover (overlaps : List (ℕ × ℕ)) :
    ∀ p ∈ overlaps, ∃ g ∈ group_overlaps (convert_overlaps_to_set overlaps) overlaps,
      p.1 ∈ g ∧ p.2 ∈ g := by
  intro p hp
  have htodo : ∀ q ∈ overlaps, q.1 ∈ asc_list (convert_overlaps_to_set overlaps) ∧
      q.2 ∈ asc_list (convert_overlaps_to_set overlaps) := by
    intro q hq
    constructor
    · exact mem_asc_list.mpr (mem_convert_overlaps_to_set.mpr ⟨q, hq, Or.inl rfl⟩)
    · exact mem_asc_list.mpr (mem_convert_overlaps_to_set.mpr ⟨q, hq, Or.inr rfl⟩)
  have hbuilt := build_groups_pairs overlaps (asc_list (convert_overlaps_to_set overlaps)) []
    (fun q hq => ⟨fun habs => absurd (htodo q hq).1 habs,
      fun habs => absurd (htodo q hq).2 habs⟩)
    (fun q hq habs _ => absurd (htodo q hq).1 habs)
    p hp
  rcases hbuilt with ⟨g, hgmem, hp1, hp2⟩
  rcases List.mem_iff_getElem.mp hgmem with ⟨k, hk, hgk⟩
  have hgd : (build_groups overlaps (asc_list (convert_overlaps_to_set overlaps)) []).getD k ∅
      = g := by
    rw [List.getD_eq_getElem?_getD, List.getElem?_eq_getElem hk]
    exact hgk
  rcases merge_groups_outer_cover
      (build_groups overlaps (asc_list (convert_overlaps_to_set overlaps)) [])
      (List.range (build_groups overlaps (asc_list (convert_overlaps_to_set overlaps)) []).length)
      [] [] k (List.mem_range.mpr hk) (by simp) with ⟨u, humem, hsub⟩
  rw [hgd] at hsub
  exact ⟨u, humem, hsub hp1, hsub hp2⟩

/-- Elements of the groups built in the first phase all occur in some
overlap pair (provided the initial groups' elements do). -/
lemma build_groups_endpoints (overlaps : List (ℕ × ℕ)) :
    ∀ (todo : List ℕ) (groups : List (Finset ℕ)),
      (∀ g ∈ groups, ∀ x ∈ g, ∃ p ∈ overlaps, x = p.1 ∨ x = p.2) →
      ∀ g ∈ build_groups overlaps todo groups, ∀ x ∈ g,
        ∃ p ∈ overlaps, x = p.1 ∨ x = p.2 := by
  intro todo
  induction todo with
  | nil =>
    intro groups h
    exact h
  | cons v rest ih =>
    intro groups h
    show ∀ g ∈ build_groups overlaps (v :: rest) groups, ∀ x ∈ g,
      ∃ p ∈ overlaps, x = p.1 ∨ x = p.2
    unfold build_groups
    rcases hgi : get_group_index v groups with _ | gi
    · apply ih
      intro g hg x hx
      rcases List.mem_append.mp hg with hg2 | hg2
      · exact h g hg2 x hx
      · have hgeq : g = add_touching_members v overlaps ∅ := by simpa using hg2
        subst hgeq
        rcases (mem_add_touching_members v overlaps ∅ x).mp hx with h3 | h3 | h3
        · simp at h3
        · exact ⟨(v, x), h3, Or.inr rfl⟩
        · exact ⟨(x, v), h3, Or.inl rfl⟩
    · apply ih
      intro g hg x hx
      rcases List.mem_or_eq_of_mem_set hg with hg2 | hg2
      · exact h g hg2 x hx
      · subst hg2
        rcases (mem_add_touching_members v overlaps _ x).mp hx with h3 | h3 | h3
        · rcases get_group_index_some v groups gi hgi with ⟨hlt, _⟩
          have hmem : groups.getD gi ∅ ∈ groups := by
            rw [List.getD_eq_getElem?_getD, List.getElem?_eq_getElem hlt]
            exact List.getElem_mem hlt
          exact h _ hmem x h3
        · exact ⟨(v, x), h3, Or.inr rfl⟩
        · exact ⟨(x, v), h3, Or.inl rfl⟩

/-- A predicate stable under unions and holding on every indexed group
holds on the inner merge scan's accumulated group. -/
lemma merge_groups_inner_pred (P : Finset ℕ → Prop) (groups : List (Finset ℕ))
    (hU : ∀ a b : Finset ℕ, P a → P b → P (a ∪ b)) (hG : ∀ i : ℕ, P (groups.getD i ∅)) :
    ∀ (idxs : List ℕ) (group1 : Finset ℕ) (removed : List ℕ),
      P group1 → P (merge_groups_inner groups idxs group1 removed).1 := by
  intro idxs
  induction idxs with
  | nil =>
    intro g r hg
    exact hg
  | cons i2 rest ih =>
    intro g r hg
    show P (merge_groups_inner groups (i2 :: rest) g r).1
    unfold merge_groups_inner
    by_cases hr : i2 ∈ r
    · rw [if_pos hr]
      exact ih g r hg
    · rw [if_neg hr]
      by_cases hn : (g ∩ groups.getD i2 ∅).Nonempty
      · rw [if_pos hn]
        exact ih _ _ (hU _ _ hg (hG i2))
      · rw [if_neg hn]
        exact ih g r hg

/-- A predicate stable under unions, holding on every indexed group and on
the accumulated unique groups, holds on the outer merge pass's output. -/
lemma merge_groups_outer_pred (P : Finset ℕ → Prop) (groups : List (Finset ℕ))
    (hU : ∀ a b : Finset ℕ, P a → P b → P (a ∪ b)) (hG : ∀ i : ℕ, P (groups.getD i ∅)) :
    ∀ (idxs : List ℕ) (removed : List ℕ) (unique_groups : List (Finset ℕ)),
      (∀ u ∈ unique_groups, P u) →
      ∀ u ∈ merge_groups_outer groups idxs removed unique_groups, P u := by
  intro idxs
  induction idxs with
  | nil =>
    intro r uq hq
    exact hq
  | cons i1 rest ih =>
    intro r uq hq u hu
    rw [show merge_groups_outer groups (i1 :: rest) r uq =
      (if i1 ∈ r then merge_groups_outer groups rest r uq
       else merge_groups_outer groups rest
        (merge_groups_inner groups rest (groups.getD i1 ∅) r).2
        (uq ++ [(merge_groups_inner groups rest (groups.getD i1 ∅) r).1])) from rfl] at hu
    by_cases hr : i1 ∈ r
    · rw [if_pos hr] at hu
      exact ih r uq hq u hu
    · rw [if_neg hr] at hu
      refine ih _ _ ?_ u hu
      intro w hw
      rcases List.mem_append.mp hw with hw2 | hw2
      · exact hq w hw2
      · have hweq : w = (merge_groups_inner groups rest (groups.getD i1 ∅) r).1 := by
          simpa using hw2
        subst hweq
        exact merge_groups_inner_pred P groups hU hG rest _ r (hG i1)

/-- Every member of every group returned by `_group_overlaps` occurs in
some overlap pair. -/
lemma group_overlaps_endpoints (overlaps : List (ℕ × ℕ)) :
    ∀ g ∈ group_overlaps (convert_overlaps_to_set overlaps) overlaps, ∀ x ∈ g,
      ∃ p ∈ overlaps, x = p.1 ∨ x = p.2 := by
  have hbuilt := build_groups_endpoints overlaps (asc_list (convert_overlaps_to_set overlaps))
    [] (by intro g hg; cases hg)
  have hG : ∀ i : ℕ, ∀ x ∈ (build_groups overlaps (asc_list (convert_overlaps_to_set overlaps))
      []).getD i ∅, ∃ p ∈ overlaps, x = p.1 ∨ x = p.2 := by
    intro i
    by_cases hi : i < (build_groups overlaps (asc_list (convert_overlaps_to_set overlaps))
        []).length
    · have hmem : (build_groups overlaps (asc_list (convert_overlaps_to_set overlaps))
          []).getD i ∅ ∈ build_groups overlaps (asc_list (convert_overlaps_to_set overlaps))
          [] := by
        rw [List.getD_eq_getElem?_getD, List.getElem?_eq_getElem hi]
        exact List.getElem_mem hi
      exact hbuilt _ hmem
    · rw [List.getD_eq_getElem?_getD, List.getElem?_eq_none (le_of_not_lt hi)]
      intro x hx
      simp at hx
  exact merge_groups_outer_pred _ _
    (fun a b ha hb x hx => by
      rcases Finset.mem_union.mp hx with h | h
      · exact ha x h
      · exact hb x h)
    hG _ _ _ (by intro u hu; cases hu)

/-- The scan keeps only values more than 2 above the running previous, so
starting from the head of a sorted list every kept value clears the head by
more than 2 and consecutive kept values clear each other by more than 2. -/
lemma clean_lines_scan_bound_chain :
    ∀ (xs : List ℤ) (x : ℤ), (x :: xs).Sorted (· ≤ ·) →
      (∀ y ∈ clean_lines_scan x xs, x + 2 < y) ∧
        List.Chain' (fun a b => a + 2 < b) (clean_lines_scan x xs) := by
  intro xs
  induction xs with
  | nil =>
    intro x _
    refine ⟨?_, List.chain'_nil⟩
    intro y hy
    simp [clean_lines_scan] at hy
  | cons z zs ih =>
    intro x hsort
    have hxz : x ≤ z := (List.sorted_cons.mp hsort).1 z (List.mem_cons_self z zs)
    have hsort' : (z :: zs).Sorted (· ≤ ·) := (List.sorted_cons.mp hsort).2
    rcases ih z hsort' with ⟨ihb, ihc⟩
    show (∀ y ∈ clean_lines_scan x (z :: zs), x + 2 < y) ∧
      List.Chain' (fun a b => a + 2 < b) (clean_lines_scan x (z :: zs))
    unfold clean_lines_scan
    by_cases hgap : z - x > 2
    · rw [if_pos hgap]
      constructor
      · intro y hy
        rcases List.mem_cons.mp hy with rfl | hy'
        · omega
        · have := ihb y hy'
          omega
      · refine List.chain'_cons'.mpr ⟨?_, ihc⟩
        intro y hy
        have : y ∈ clean_lines_scan z zs := List.mem_of_mem_head? hy
        have := ihb y this
        omega
    · rw [if_neg hgap]
      constructor
      · intro y hy
        have := ihb y hy
        omega
      · exact ihc

/-- C10 (implicit): for every input list of integer coordinates, the Line
Clusterer's output is strictly ascending and every two consecutive retained
values differ by more than 2 pixel units. -/
theorem C10_clean_lines_strict_gaps (lines : List ℤ) :
    List.Chain' (fun a b => a + 2 < b) (clean_lines lines) ∧
      (clean_lines lines).Sorted (· < ·) := by
  have hsorted : (List.insertionSort (· ≤ ·) lines).Sorted (· ≤ ·) :=
    List.sorted_insertionSort (· ≤ ·) lines
  have hchain : List.Chain' (fun a b => a + 2 < b) (clean_lines lines) := by
    unfold clean_lines
    rcases hms : List.insertionSort (· ≤ ·) lines with _ | ⟨x, xs⟩
    · exact List.chain'_nil
    · rw [hms] at hsorted
      rcases clean_lines_scan_bound_chain xs x hsorted with ⟨hb, hc⟩
      show List.Chain' _ (clean_lines_scan (-10) (x :: xs))
      unfold clean_lines_scan
      by_cases hgap : x - (-10) > 2
      · rw [if_pos hgap]
        refine List.chain'_cons'.mpr ⟨?_, hc⟩
        intro y hy
        have : y ∈ clean_lines_scan x xs := List.mem_of_mem_head? hy
        have := hb y this
        omega
      · rw [if_neg hgap]
        exact hc
  refine ⟨hchain, ?_⟩
  haveI : IsTrans ℤ (fun a b : ℤ => a + 2 < b) := ⟨fun a b c hab hbc => by omega⟩
  have := List.chain'_iff_pairwise.mp hchain
  exact this.imp (fun h => by omega)

/-- C1: the Line Clusterer on `[0, 1, 50, 51, 52, 100]` does NOT return
`[0, 50, 52, 100]` as claimed — 52 differs from the previously scanned 51
by only 1, so it is dropped as well. -/
theorem C1_counterexample :
    clean_lines [0, 1, 50, 51, 52, 100] ≠ [0, 50, 52, 100] := by
  decide

/-- C1 (amended): the Line Clusterer on `[0, 1, 50, 51, 52, 100]` returns
`[0, 50, 100]`: 51 is dropped relative to 50 and 52 is dropped relative to
the running previous value 51. -/
theorem C1_amended :
    clean_lines [0, 1, 50, 51, 52, 100] = [0, 50, 100] := by
  decide

/-! ## C5: the pairwise overlap test -/

/-- Two unit boxes sharing only the edge `x = 1`. -/
def edge_box1 : Box :=
  ⟨0, 0, 1, 1, "text", 1⟩

/-- See `edge_box1`. -/
def edge_box2 : Box :=
  ⟨1, 0, 2, 1, "text", 1⟩

/-- C5 counterexample: two boxes sharing only an edge (intersection area 0)
are reported as overlapping by `bboxes_overlaps`, contradicting the claim
that overlap requires positive intersection area. -/
theorem C5_counterexample :
    bboxes_overlaps edge_box1 edge_box2 = true ∧
      bboxes_intersection_size edge_box1 edge_box2 = 0 := by
  constructor
  · decide
  · decide

/-- C5 (amended): for well-formed boxes, `bboxes_overlaps` returns true iff
the closed rectangles intersect (share at least one point) — zero-area
contact along an edge or corner counts as overlapping. -/
theorem C5_amended (bbox1 bbox2 : Box) (h1 : bbox1.xMin ≤ bbox1.xMax)
    (h2 : bbox1.yMin ≤ bbox1.yMax) (h3 : bbox2.xMin ≤ bbox2.xMax)
    (h4 : bbox2.yMin ≤ bbox2.yMax) :
    bboxes_overlaps bbox1 bbox2 = true ↔
      (max bbox1.xMin bbox2.xMin ≤ min bbox1.xMax bbox2.xMax ∧
        max bbox1.yMin bbox2.yMin ≤ min bbox1.yMax bbox2.yMax) := by
  simp only [bboxes_overlaps, Bool.not_eq_eq_eq_not, Bool.not_true, Bool.or_eq_false_iff,
    decide_eq_false_iff_not, not_lt, max_le_iff, le_min_iff]
  constructor
  · rintro ⟨⟨⟨ha, hb⟩, hc⟩, hd⟩
    exact ⟨⟨⟨h1, ha⟩, hb, h3⟩, ⟨h2, hc⟩, hd, h4⟩
  · rintro ⟨⟨⟨-, ha⟩, hb, -⟩, ⟨-, hc⟩, hd, -⟩
    exact ⟨⟨⟨ha, hb⟩, hc⟩, hd⟩

/-- Witness for `C5_amended` at the two edge-sharing unit boxes. -/
theorem C5_amended_witness :
    (edge_box1.xMin ≤ edge_box1.xMax ∧ edge_box1.yMin ≤ edge_box1.yMax ∧
      edge_box2.xMin ≤ edge_box2.xMax ∧ edge_box2.yMin ≤ edge_box2.yMax) ∧
      (bboxes_overlaps edge_box1 edge_box2 = true ↔
        (max edge_box1.xMin edge_box2.xMin ≤ min edge_box1.xMax edge_box2.xMax ∧
          max edge_box1.yMin edge_box2.yMin ≤ min edge_box1.yMax edge_box2.yMax)) :=
  ⟨by refine ⟨?_, ?_, ?_, ?_⟩ <;> decide,
    C5_amended edge_box1 edge_box2 (by decide) (by decide) (by decide) (by decide)⟩

/-! ## C6: the special-case filter -/

/-- C6: for overlapping boxes the special-case filter fires exactly when
both own-area overlap percentages are below 50, and the nested-box branch
never fires because the tolerated-label check is hardwired to false. -/
theorem C6_special_case_characterization (bbox1 bbox2 : Box)
    (hov : bboxes_overlaps bbox1 bbox2 = true) :
    (is_special_case_of_overlap bbox1 bbox2 = true ↔
      ((bboxes_overlaping_percentages bbox1 bbox2).1 < 50 ∧
        (bboxes_overlaping_percentages bbox1 bbox2).2 < 50)) ∧
      is_formula_inside_text bbox1 bbox2 = false := by
  refine ⟨?_, rfl⟩
  simp only [is_special_case_of_overlap, is_formula_inside_text]
  split_ifs with hc1 hc2
  · exact iff_of_true rfl hc1
  · exact absurd hc2.2 (by simp)
  · exact iff_of_false (by simp) hc1

/-- The larger box of the spec's concrete scenario A. -/
def scenario_a_box1 : Box :=
  ⟨0, 0, 100, 100, "text", 9 / 10⟩

/-- The nested box of the spec's concrete scenario A. -/
def scenario_a_box2 : Box :=
  ⟨10, 10, 90, 90, "text", 1 / 2⟩

/-- Witness for `C6_special_case_characterization` at the two nested
scenario-A boxes. -/
theorem C6_witness :
    bboxes_overlaps scenario_a_box1 scenario_a_box2 = true ∧
      ((is_special_case_of_overlap scenario_a_box1 scenario_a_box2 = true ↔
        ((bboxes_overlaping_percentages scenario_a_box1 scenario_a_box2).1 < 50 ∧
          (bboxes_overlaping_percentages scenario_a_box1 scenario_a_box2).2 < 50)) ∧
        is_formula_inside_text scenario_a_box1 scenario_a_box2 = false) :=
  ⟨by decide, C6_special_case_characterization scenario_a_box1 scenario_a_box2 (by decide)⟩

/-! ## C8, C9: the overlap resolver's frame behaviour -/

/-- C8: when no surviving overlap pair exists (empty list, a single box, or
pairwise non-overlapping boxes all produce an empty pair list), the Overlap
Resolver returns its input unchanged. -/
theorem C8_no_pairs_identity (boxes : List Box) (h : find_overlaps boxes = []) :
    process_bboxes boxes = boxes :=
  process_bboxes_eq_self_of_no_overlaps h

/-- Two strictly disjoint boxes. -/
def disjoint_boxes : List Box :=
  [⟨0, 0, 1, 1, "text", 1⟩, ⟨5, 0, 6, 1, "title", 1 / 2⟩]

/-- Witness for `C8_no_pairs_identity` on two disjoint boxes. -/
theorem C8_witness :
    find_overlaps disjoint_boxes = [] ∧ process_bboxes disjoint_boxes = disjoint_boxes :=
  ⟨by decide, C8_no_pairs_identity disjoint_boxes (by decide)⟩

/-- C9: the Overlap Resolver's output is a sublist of its input — surviving
boxes are the unmodified input boxes in their original relative order. -/
theorem C9_output_sublist (boxes : List Box) :
    (process_bboxes boxes).Sublist boxes := by
  have key : ∀ s : Finset ℕ,
      (((List.range boxes.length).filter (fun index => decide (index ∉ s))).map
        (fun index => boxes.getD index default)).Sublist boxes := by
    intro s
    have h1 := List.filter_sublist (p := fun index => decide (index ∉ s))
      (List.range boxes.length)
    have h2 := h1.map (fun index => boxes.getD index default)
    rw [map_getD_range] at h2
    exact h2
  exact key _

/-! ## C3: grouping vs. connected components -/

/-- A 2-pixel-wide, 10-pixel-tall box starting at `k` (consecutive values
of `k` give boxes overlapping by half their width). -/
def path_box (k : ℚ) : Box :=
  ⟨k, 0, k + 2, 10, "text", 1 / 2⟩

/-- Seven boxes whose surviving-overlap graph is the path
0 — 5 — 3 — 2 — 4 — 6 — 1 (the list position is the box index; the strip
position along the x axis realizes the path order). -/
def chain_boxes : List Box :=
  [path_box 0, path_box 6, path_box 3, path_box 2, path_box 4, path_box 1, path_box 5]

/-- C3 counterexample: on `chain_boxes` (one connected overlap component)
the resolver returns two groups that are NOT disjoint — box 4 (and box 6)
lies in both — so the groups are neither pairwise disjoint nor connected
components, and a box does not lie in exactly one group. -/
theorem C3_counterexample :
    group_overlaps (convert_overlaps_to_set (find_overlaps chain_boxes))
        (find_overlaps chain_boxes) = [{0, 2, 3, 4, 5, 6}, {1, 4, 6}] ∧
      (4 : ℕ) ∈ ({0, 2, 3, 4, 5, 6} : Finset ℕ) ∧ (4 : ℕ) ∈ ({1, 4, 6} : Finset ℕ) ∧
      ({0, 2, 3, 4, 5, 6} : Finset ℕ) ≠ {1, 4, 6} := by
  refine ⟨by decide, by decide, by decide, by decide⟩

/-- C3 (amended): the groups cover the surviving-overlap graph — the two
endpoints of every surviving pair lie together in at least one returned
group, and every member of a returned group occurs in some surviving
pair — but the groups need not be pairwise disjoint and need not be the
connected components: a box can lie in more than one returned group. -/
theorem C3_amended (boxes : List Box) :
    (∀ p ∈ find_overlaps boxes,
      ∃ g ∈ group_overlaps (convert_overlaps_to_set (find_overlaps boxes))
        (find_overlaps boxes), p.1 ∈ g ∧ p.2 ∈ g) ∧
    (∀ g ∈ group_overlaps (convert_overlaps_to_set (find_overlaps boxes))
        (find_overlaps boxes), ∀ x ∈ g, ∃ p ∈ find_overlaps boxes, x = p.1 ∨ x = p.2) :=
  ⟨group_overlaps_pair_cover (find_overlaps boxes), group_overlaps_endpoints (find_overlaps boxes)⟩

/-- Witness for `C3_amended` on the chain example at the pair (0, 5). -/
theorem C3_amended_witness :
    ((0 : ℕ), (5 : ℕ)) ∈ find_overlaps chain_boxes ∧
      ∃ g ∈ group_overlaps (convert_overlaps_to_set (find_overlaps chain_boxes))
        (find_overlaps chain_boxes), (0 : ℕ) ∈ g ∧ (5 : ℕ) ∈ g :=
  ⟨by decide, (C3_amended chain_boxes).1 (0, 5) (by decide)⟩

/-! ## C4: idempotence of the overlap resolver -/

/-- Membership in an overlap list makes the two indices direct neighbours. -/
lemma is_direct_neightbour_of_mem {a b : ℕ} {overlaps : List (ℕ × ℕ)}
    (h : (a, b) ∈ overlaps) : is_direct_neightbour a b overlaps = true := by
  unfold is_direct_neightbour
  rw [List.any_eq_true]
  exact ⟨(a, b), h, by simp⟩

/-- The direct-neighbour test is symmetric. -/
lemma is_direct_neightbour_symm (a b : ℕ) (overlaps : List (ℕ × ℕ)) :
    is_direct_neightbour a b overlaps = is_direct_neightbour b a overlaps := by
  rw [Bool.eq_iff_iff]
  unfold is_direct_neightbour
  rw [List.any_eq_true, List.any_eq_true]
  constructor <;>
    (rintro ⟨p, hp, hcond⟩
     refine ⟨p, hp, ?_⟩
     simp only [Bool.or_eq_true, Bool.and_eq_true, decide_eq_true_eq] at hcond ⊢
     tauto)

/-- One unfolding step of `_process_group` on a nonempty group. -/
lemma process_group_eq (boxes : List Box) (overlaps : List (ℕ × ℕ)) (g : Finset ℕ)
    (h : g.Nonempty) :
    process_group boxes overlaps g =
      g.filter (fun x => x ≠ group_max boxes g ∧
          is_direct_neightbour (group_max boxes g) x overlaps = true) ∪
        process_group boxes overlaps (g.filter (fun x => x ≠ group_max boxes g ∧
          ¬ is_direct_neightbour (group_max boxes g) x overlaps = true)) := by
  rw [process_group]
  rw [dif_pos h]

/-- In `_process_group` every group member is either eventually removed or
a round maximum, and round maxima are pairwise non-neighbours; hence of two
direct neighbours in the same group at least one lands in the removed set. -/
lemma process_group_pair (boxes : List Box) (overlaps : List (ℕ × ℕ)) :
    ∀ (g : Finset ℕ) (a b : ℕ), a ∈ g → b ∈ g → a ≠ b →
      is_direct_neightbour a b overlaps = true →
      a ∈ process_group boxes overlaps g ∨ b ∈ process_group boxes overlaps g := by
  have main : ∀ (n : ℕ) (g : Finset ℕ), g.card = n → ∀ a b : ℕ, a ∈ g → b ∈ g → a ≠ b →
      is_direct_neightbour a b overlaps = true →
      a ∈ process_group boxes overlaps g ∨ b ∈ process_group boxes overlaps g := by
    intro n
    induction n using Nat.strong_induction_on with
    | _ n ih =>
      intro g hn a b ha hb hab hd
      have hne : g.Nonempty := ⟨a, ha⟩
      rw [process_group_eq boxes overlaps g hne]
      by_cases haM : a = group_max boxes g
      · right
        apply Finset.mem_union_left
        apply Finset.mem_filter.mpr
        refine ⟨hb, ?_, ?_⟩
        · rw [← haM]
          exact fun hba => hab hba.symm
        · rw [← haM]
          exact hd
      · by_cases hbM : b = group_max boxes g
        · left
          apply Finset.mem_union_left
          apply Finset.mem_filter.mpr
          refine ⟨ha, ?_, ?_⟩
          · rw [← hbM]
            exact hab
          · rw [← hbM, ← is_direct_neightbour_symm]
            exact hd
        · by_cases haR : is_direct_neightbour (group_max boxes g) a overlaps = true
          · left
            exact Finset.mem_union_left _ (Finset.mem_filter.mpr ⟨ha, haM, haR⟩)
          · by_cases hbR : is_direct_neightbour (group_max boxes g) b overlaps = true
            · right
              exact Finset.mem_union_left _ (Finset.mem_filter.mpr ⟨hb, hbM, hbR⟩)
            · have hlt : (g.filter (fun x => x ≠ group_max boxes g ∧
                  ¬ is_direct_neightbour (group_max boxes g) x overlaps = true)).card < n := by
                rw [← hn]
                refine Finset.card_lt_card ⟨Finset.filter_subset _ _, fun hsub => ?_⟩
                have := hsub (group_max_mem boxes hne)
                simp at this
              rcases ih _ hlt _ rfl a b (Finset.mem_filter.mpr ⟨ha, haM, haR⟩)
                  (Finset.mem_filter.mpr ⟨hb, hbM, hbR⟩) hab hd with h2 | h2
              · exact Or.inl (Finset.mem_union_right _ h2)
              · exact Or.inr (Finset.mem_union_right _ h2)
  intro g a b
  exact main g.card g rfl a b

/-- The accumulator is contained in the removal-collecting fold. -/
lemma subset_foldl_union (boxes : List Box) (overlaps : List (ℕ × ℕ)) :
    ∀ (l : List (Finset ℕ)) (acc : Finset ℕ),
      acc ⊆ l.foldl (fun acc g => acc ∪ process_group boxes overlaps g) acc := by
  intro l
  induction l with
  | nil =>
    intro acc
    exact subset_rfl
  | cons g gs ih =>
    intro acc
    rw [List.foldl_cons]
    exact subset_trans Finset.subset_union_left (ih _)

/-- Each listed group's removals are contained in the collecting fold. -/
lemma process_group_subset_foldl (boxes : List Box) (overlaps : List (ℕ × ℕ)) :
    ∀ (l : List (Finset ℕ)) (acc : Finset ℕ) (g : Finset ℕ), g ∈ l →
      process_group boxes overlaps g ⊆
        l.foldl (fun acc g => acc ∪ process_group boxes overlaps g) acc := by
  intro l
  induction l with
  | nil =>
    intro acc g hg
    cases hg
  | cons g0 gs ih =>
    intro acc g hg
    rw [List.foldl_cons]
    rcases List.mem_cons.mp hg with rfl | hg2
    · exact subset_trans Finset.subset_union_right (subset_foldl_union boxes overlaps gs _)
    · exact ih _ g hg2

/-- The removal set computed by `process_bboxes` for a given box list. -/
def removing_indexes (boxes : List Box) : Finset ℕ :=
  get_removing_indexes boxes
    (group_overlaps (convert_overlaps_to_set (find_overlaps boxes)) (find_overlaps boxes))
    (find_overlaps boxes)

/-- The indices `process_bboxes` keeps, in ascending order. -/
def surviving_indexes (boxes : List Box) : List ℕ :=
  (List.range boxes.length).filter (fun index => decide (index ∉ removing_indexes boxes))

/-- `process_bboxes` reads the surviving indices back from the input. -/
lemma process_bboxes_eq (boxes : List Box) :
    process_bboxes boxes =
      (surviving_indexes boxes).map (fun index => boxes.getD index default) := rfl

/-- At least one endpoint of every surviving overlap pair is removed. -/
lemma find_overlaps_endpoint_removed (boxes : List Box) {a b : ℕ}
    (h : (a, b) ∈ find_overlaps boxes) :
    a ∈ removing_indexes boxes ∨ b ∈ removing_indexes boxes := by
  rcases group_overlaps_pair_cover (find_overlaps boxes) (a, b) h with ⟨g, hg, ha, hb⟩
  have hab : a ≠ b := Nat.ne_of_lt (mem_find_overlaps.mp h).1
  have hdn : is_direct_neightbour a b (find_overlaps boxes) = true :=
    is_direct_neightbour_of_mem h
  have hsub : process_group boxes (find_overlaps boxes) g ⊆ removing_indexes boxes :=
    process_group_subset_foldl boxes (find_overlaps boxes) _ ∅ g hg
  rcases process_group_pair boxes (find_overlaps boxes) g a b ha hb hab hdn with h2 | h2
  · exact Or.inl (hsub h2)
  · exact Or.inr (hsub h2)

/-- The pruned output contains no surviving overlap pair. -/
lemma find_overlaps_process_bboxes (boxes : List Box) :
    find_overlaps (process_bboxes boxes) = [] := by
  apply List.eq_nil_iff_forall_not_mem.mpr
  intro p hp
  rcases mem_find_overlaps.mp hp with ⟨h12, h2len, hov⟩
  rw [process_bboxes_eq boxes, List.length_map] at h2len
  have h1len : p.1 < (surviving_indexes boxes).length := lt_trans h12 h2len
  have hgd : ∀ (k : ℕ) (hk : k < (surviving_indexes boxes).length),
      (process_bboxes boxes).getD k default =
        boxes.getD ((surviving_indexes boxes).get ⟨k, hk⟩) default := by
    intro k hk
    rw [process_bboxes_eq boxes, List.getD_eq_getElem?_getD,
      List.getElem?_eq_getElem (by simpa using hk), Option.getD_some, List.getElem_map]
    rfl
  have hpair : ((surviving_indexes boxes).get ⟨p.1, h1len⟩,
      (surviving_indexes boxes).get ⟨p.2, h2len⟩) ∈ find_overlaps boxes := by
    apply mem_find_overlaps.mpr
    refine ⟨?_, ?_, ?_⟩
    · have hpw : (surviving_indexes boxes).Pairwise (· < ·) :=
        List.Pairwise.sublist (List.filter_sublist _) (List.pairwise_lt_range _)
      exact List.pairwise_iff_getElem.mp hpw p.1 p.2 h1len h2len h12
    · have hmem : (surviving_indexes boxes).get ⟨p.2, h2len⟩ ∈ surviving_indexes boxes :=
        List.get_mem _ _ _
      have := (List.mem_filter.mp hmem).1
      exact List.mem_range.mp this
    · rw [← hgd p.1 h1len, ← hgd p.2 h2len]
      exact hov
  have hs1 : (surviving_indexes boxes).get ⟨p.1, h1len⟩ ∉ removing_indexes boxes := by
    have hmem : (surviving_indexes boxes).get ⟨p.1, h1len⟩ ∈ surviving_indexes boxes :=
      List.get_mem _ _ _
    have := (List.mem_filter.mp hmem).2
    exact of_decide_eq_true this
  have hs2 : (surviving_indexes boxes).get ⟨p.2, h2len⟩ ∉ removing_indexes boxes := by
    have hmem : (surviving_indexes boxes).get ⟨p.2, h2len⟩ ∈ surviving_indexes boxes :=
      List.get_mem _ _ _
    have := (List.mem_filter.mp hmem).2
    exact of_decide_eq_true this
  rcases find_overlaps_endpoint_removed boxes hpair with h2 | h2
  · exact hs1 h2
  · exact hs2 h2

/-- C4: the Overlap Resolver is idempotent — running `process_bboxes` on
its own pruned output changes nothing further. -/
theorem C4_idempotent (boxes : List Box) :
    process_bboxes (process_bboxes boxes) = process_bboxes boxes :=
  process_bboxes_eq_self_of_no_overlaps (find_overlaps_process_bboxes boxes)

/-! ## C2, C7: the table grid reconstructor -/

/-- The cleaned row lines of a cell list. -/
def row_lines_of (cell_boxes : List TCell) : List ℤ :=
  (create_table_row_and_column_lines cell_boxes).1

/-- The cleaned column lines of a cell list. -/
def column_lines_of (cell_boxes : List TCell) : List ℤ :=
  (create_table_row_and_column_lines cell_boxes).2

/-- Unfolding of the non-degenerate branch of the reconstructor. -/
lemma create_custom_eq (cell_boxes : List TCell) (coordinate : List ℚ)
    (hne : cell_boxes.length ≠ 0) :
    create_custom_result_from_paddlex_cell_result cell_boxes coordinate =
      Option.bind (cell_boxes.mapM (cell_record_of_box (coordinate.getD 0 0)
          (coordinate.getD 1 0) (row_lines_of cell_boxes) (column_lines_of cell_boxes)))
        (fun cells_with_data =>
          Option.bind (fill_missing_cells_and_sort cells_with_data
              (((row_lines_of cell_boxes).length : ℤ) - 1)
              (((column_lines_of cell_boxes).length : ℤ) - 1))
            (fun cells =>
              some { rows := ((row_lines_of cell_boxes).length : ℤ) - 1,
                     columns := ((column_lines_of cell_boxes).length : ℤ) - 1,
                     cells := cells })) := by
  unfold create_custom_result_from_paddlex_cell_result
  rw [if_neg hne]
  rfl

/-- The nearest-line fold returns its initial index or a scanned index. -/
lemma foldl_select_choice (target : ℤ) (lines : List ℤ) :
    ∀ (l : List ℕ) (a : ℕ),
      l.foldl (fun acc i =>
        if |lines.getD i 0 - target| < |lines.getD acc 0 - target| then i else acc) a = a ∨
      l.foldl (fun acc i =>
        if |lines.getD i 0 - target| < |lines.getD acc 0 - target| then i else acc) a ∈ l := by
  intro l
  induction l with
  | nil => intro a; exact Or.inl rfl
  | cons z zs ih =>
    intro a
    by_cases hz : |lines.getD z 0 - target| < |lines.getD a 0 - target|
    · simp only [List.foldl_cons, if_pos hz]
      rcases ih z with h1 | h1
      · exact Or.inr (by rw [h1]; exact List.mem_cons_self z zs)
      · exact Or.inr (List.mem_cons_of_mem z h1)
    · simp only [List.foldl_cons, if_neg hz]
      rcases ih a with h1 | h1
      · exact Or.inl h1
      · exact Or.inr (List.mem_cons_of_mem z h1)

/-- On a nonempty line list the nearest-line lookup succeeds with an
in-bounds index. -/
lemma find_line_index_some (target : ℤ) :
    ∀ lines : List ℤ, lines ≠ [] →
      ∃ k, find_line_index target lines = some k ∧ k < lines.length := by
  intro lines h
  rcases lines with _ | ⟨x, xs⟩
  · exact absurd rfl h
  · refine ⟨_, rfl, ?_⟩
    rcases foldl_select_choice target (x :: xs) (List.range (x :: xs).length) 0 with h1 | h1
    · rw [h1]
      simp
    · exact List.mem_range.mp h1

/-- A successful nearest-line lookup forces a nonempty line list. -/
lemma find_line_index_ne_nil {target : ℤ} {lines : List ℤ} {k : ℕ}
    (h : find_line_index target lines = some k) : lines ≠ [] := by
  intro hnil
  subst hnil
  cases h

/-- Evaluation of the per-cell record builder when all four nearest-line
lookups succeed. -/
lemma cell_record_of_box_eq (table_min_x table_min_y : ℚ)
    (row_lines column_lines : List ℤ) (box : TCell) {ri rmax ci cmax : ℕ}
    (h1 : find_line_index (pyInt (box.coordinate.getD 1 0)) row_lines = some ri)
    (h2 : find_line_index (pyInt (box.coordinate.getD 3 0)) row_lines = some rmax)
    (h3 : find_line_index (pyInt (box.coordinate.getD 0 0)) column_lines = some ci)
    (h4 : find_line_index (pyInt (box.coordinate.getD 2 0)) column_lines = some cmax) :
    cell_record_of_box table_min_x table_min_y row_lines column_lines box =
      some { row := (ri : ℤ) + 1, column := (ci : ℤ) + 1,
             row_span := (rmax : ℤ) - (ri : ℤ), column_span := (cmax : ℤ) - (ci : ℤ),
             box := some [column_lines.getD ci 0, row_lines.getD ri 0,
               column_lines.getD cmax 0, row_lines.getD rmax 0],
             bbox := some [table_min_x + (column_lines.getD ci 0 : ℚ),
               table_min_y + (row_lines.getD ri 0 : ℚ),
               table_min_x + (column_lines.getD cmax 0 : ℚ),
               table_min_y + (row_lines.getD rmax 0 : ℚ)] } := by
  unfold cell_record_of_box calculate_indexes_position_span
  dsimp only
  rw [h1, h2, h3, h4]
  rfl

/-- Pointwise success of an `Option`-valued map lifts to `mapM`, carrying a
postcondition on the produced values. -/
lemma mapM_option_exists {α β : Type} (f : α → Option β) (S : β → Prop) :
    ∀ l : List α, (∀ a ∈ l, ∃ b, f a = some b ∧ S b) →
      ∃ bs, l.mapM f = some bs ∧ bs.length = l.length ∧ ∀ b ∈ bs, S b := by
  intro l
  induction l with
  | nil =>
    intro _
    exact ⟨[], rfl, rfl, by simp⟩
  | cons a l ih =>
    intro h
    rcases h a (by simp) with ⟨b, hb, hSb⟩
    rcases ih (fun x hx => h x (List.mem_cons_of_mem a hx)) with ⟨bs, hbs, hlen, hS⟩
    refine ⟨b :: bs, ?_, by simp [hlen], ?_⟩
    · rw [List.mapM_cons, hb, hbs]
      rfl
    · intro c hc
      rcases List.mem_cons.mp hc with rfl | hc2
      · exact hSb
      · exact hS c hc2

/-- A successful `mapM` produces as many values as inputs. -/
lemma mapM_option_length {α β : Type} (f : α → Option β) :
    ∀ (l : List α) (bs : List β), l.mapM f = some bs → bs.length = l.length := by
  intro l
  induction l with
  | nil =>
    intro bs h
    rw [List.mapM_nil] at h
    cases h
    rfl
  | cons a l ih =>
    intro bs h
    rw [List.mapM_cons] at h
    cases hfa : f a with
    | none =>
      rw [hfa] at h
      simp at h
    | some b =>
      rw [hfa] at h
      cases hml : l.mapM f with
      | none =>
        rw [hml] at h
        simp at h
      | some bs2 =>
        rw [hml] at h
        have h2 : some (b :: bs2) = some bs := h
        cases h2
        simp [ih bs2 hml]

/-- `pyIndex` on an in-range nonnegative index. -/
lemma pyIndex_of_nonneg {len : ℕ} {i : ℤ} (h0 : 0 ≤ i) (hlt : i < (len : ℤ)) :
    pyIndex len i = some i.toNat := by
  unfold pyIndex
  rw [if_pos ⟨h0, hlt⟩]

/-- A successful index resolution means the list is nonempty. -/
lemma pyIndex_some_pos {len : ℕ} {i : ℤ} {n : ℕ} (h : pyIndex len i = some n) : 0 < len := by
  unfold pyIndex at h
  split_ifs at h with h1 h2
  · omega
  · omega

/-- `pyGet` on an in-range nonnegative index. -/
lemma pyGet_eq {α : Type} {l : List α} {i : ℤ} (h0 : 0 ≤ i) (hlt : i < (l.length : ℤ)) :
    pyGet l i = some (l.get ⟨i.toNat, by omega⟩) := by
  unfold pyGet
  rw [pyIndex_of_nonneg h0 hlt]
  show l.get? i.toNat = _
  rw [List.get?_eq_getElem?, List.getElem?_eq_getElem (by omega)]
  rfl

/-- A successful `pyGet` returns a member of the list. -/
lemma pyGet_mem {α : Type} {l : List α} {i : ℤ} {x : α} (h : pyGet l i = some x) : x ∈ l := by
  unfold pyGet at h
  cases hpi : pyIndex l.length i with
  | none =>
    rw [hpi] at h
    cases h
  | some n =>
    rw [hpi] at h
    have h2 : l.get? n = some x := h
    exact List.get?_mem h2

/-- A successful `pyGet` means the list is nonempty. -/
lemma pyGet_pos {α : Type} {l : List α} {i : ℤ} {x : α} (h : pyGet l i = some x) :
    0 < l.length := by
  unfold pyGet at h
  cases hpi : pyIndex l.length i with
  | none =>
    rw [hpi] at h
    cases h
  | some n =>
    exact pyIndex_some_pos hpi

/-- `pySet` on an in-range nonnegative index. -/
lemma pySet_eq {α : Type} {l : List α} {i : ℤ} (h0 : 0 ≤ i) (hlt : i < (l.length : ℤ))
    (a : α) : pySet l i a = some (l.set i.toNat a) := by
  unfold pySet
  rw [pyIndex_of_nonneg h0 hlt]
  rfl

/-- A successful `pySet` writes at some position. -/
lemma pySet_inv {α : Type} {l : List α} {i : ℤ} {a : α} {l2 : List α}
    (h : pySet l i a = some l2) : ∃ n : ℕ, l2 = l.set n a := by
  unfold pySet at h
  cases hpi : pyIndex l.length i with
  | none =>
    rw [hpi] at h
    cases h
  | some n =>
    rw [hpi] at h
    cases h
    exact ⟨n, rfl⟩

/-- A successful `pySet` means the list is nonempty. -/
lemma pySet_pos {α : Type} {l : List α} {i : ℤ} {a : α} {l2 : List α}
    (h : pySet l i a = some l2) : 0 < l.length := by
  unfold pySet at h
  cases hpi : pyIndex l.length i with
  | none =>
    rw [hpi] at h
    cases h
  | some n =>
    exact pyIndex_some_pos hpi

/-- Success of one fill write decomposes into its three indexing steps. -/
lemma fill_missing_step_some_iff {grid grid2 : List (List CellRecord)} {cell : CellRecord} :
    fill_missing_step grid cell = some grid2 ↔
      ∃ row_list row_list2, pyGet grid (cell.row - 1) = some row_list ∧
        pySet row_list (cell.column - 1) cell = some row_list2 ∧
        pySet grid (cell.row - 1) row_list2 = some grid2 := by
  unfold fill_missing_step
  constructor
  · intro h
    cases hg : pyGet grid (cell.row - 1) with
    | none =>
      rw [hg] at h
      have h2 : (none : Option (List (List CellRecord))) = some grid2 := h
      cases h2
    | some rl =>
      rw [hg] at h
      have h2 : (pySet rl (cell.column - 1) cell >>= fun row_list2 =>
          pySet grid (cell.row - 1) row_list2) = some grid2 := h
      cases hs : pySet rl (cell.column - 1) cell with
      | none =>
        rw [hs] at h2
        have h3 : (none : Option (List (List CellRecord))) = some grid2 := h2
        cases h3
      | some rl2 =>
        rw [hs] at h2
        have h3 : pySet grid (cell.row - 1) rl2 = some grid2 := h2
        exact ⟨rl, rl2, hg ▸ rfl, hs, h3⟩
  · rintro ⟨rl, rl2, h1, h2, h3⟩
    rw [h1]
    show (pySet rl (cell.column - 1) cell >>= fun row_list2 =>
      pySet grid (cell.row - 1) row_list2) = some grid2
    rw [h2]
    exact h3

/-- A successful fill write preserves the grid's shape. -/
lemma fill_missing_step_shape {grid grid2 : List (List CellRecord)} {cell : CellRecord}
    {C : ℕ} (hrows : ∀ rl ∈ grid, rl.length = C)
    (h : fill_missing_step grid cell = some grid2) :
    grid2.length = grid.length ∧ ∀ rl ∈ grid2, rl.length = C := by
  rcases fill_missing_step_some_iff.mp h with ⟨rl, rl2, h1, h2, h3⟩
  rcases pySet_inv h3 with ⟨n, rfl⟩
  rcases pySet_inv h2 with ⟨m, rfl⟩
  refine ⟨List.length_set _ _ _, ?_⟩
  intro rl3 hrl3
  rcases List.mem_or_eq_of_mem_set hrl3 with h4 | h4
  · exact hrows rl3 h4
  · subst h4
    rw [List.length_set]
    exact hrows rl (pyGet_mem h1)

/-- A fill write succeeds when the cell's grid position is in bounds. -/
lemma fill_missing_step_succeeds {grid : List (List CellRecord)} {cell : CellRecord}
    {R C : ℕ} (hlen : grid.length = R) (hrows : ∀ rl ∈ grid, rl.length = C)
    (hr0 : 0 ≤ cell.row - 1) (hr1 : cell.row - 1 < (R : ℤ))
    (hc0 : 0 ≤ cell.column - 1) (hc1 : cell.column - 1 < (C : ℤ)) :
    ∃ grid2, fill_missing_step grid cell = some grid2 := by
  have hrlen : cell.row - 1 < (grid.length : ℤ) := by
    rw [hlen]
    exact hr1
  have hR : (cell.row - 1).toNat < grid.length := by omega
  have hg : pyGet grid (cell.row - 1) =
      some (grid.get ⟨(cell.row - 1).toNat, hR⟩) := pyGet_eq hr0 hrlen
  have hmem : grid.get ⟨(cell.row - 1).toNat, hR⟩ ∈ grid := List.get_mem _ _ _
  have hrl : (grid.get ⟨(cell.row - 1).toNat, hR⟩).length = C := hrows _ hmem
  have hclen : cell.column - 1 < ((grid.get ⟨(cell.row - 1).toNat, hR⟩).length : ℤ) := by
    rw [hrl]
    exact hc1
  have hs1 := pySet_eq hc0 hclen cell
  have hs2 := pySet_eq hr0 hrlen
    ((grid.get ⟨(cell.row - 1).toNat, hR⟩).set (cell.column - 1).toNat cell)
  refine ⟨grid.set (cell.row - 1).toNat
    ((grid.get ⟨(cell.row - 1).toNat, hR⟩).set (cell.column - 1).toNat cell), ?_⟩
  apply fill_missing_step_some_iff.mpr
  exact ⟨_, _, hg, hs1, hs2⟩

/-- Constructive invariant for `Option`-valued left folds. -/
lemma foldlM_option_invariant {α β : Type} (f : β → α → Option β) (P : β → Prop)
    (Q : α → Prop) (hstep : ∀ b a, P b → Q a → ∃ b2, f b a = some b2 ∧ P b2) :
    ∀ (l : List α), (∀ a ∈ l, Q a) → ∀ b, P b → ∃ b2, l.foldlM f b = some b2 ∧ P b2 := by
  intro l
  induction l with
  | nil =>
    intro _ b hb
    exact ⟨b, rfl, hb⟩
  | cons a l ih =>
    intro hQ b hb
    rcases hstep b a hb (hQ a (by simp)) with ⟨b2, hb2, hP2⟩
    rcases ih (fun x hx => hQ x (List.mem_cons_of_mem a hx)) b2 hP2 with ⟨b3, hb3, hP3⟩
    refine ⟨b3, ?_, hP3⟩
    rw [List.foldlM_cons, hb2]
    exact hb3

/-- Preservation along a successful `Option`-valued left fold. -/
lemma foldlM_option_preserves {α β : Type} (f : β → α → Option β) (P : β → Prop)
    (hstep : ∀ b a b2, P b → f b a = some b2 → P b2) :
    ∀ (l : List α) (b b2 : β), P b → l.foldlM f b = some b2 → P b2 := by
  intro l
  induction l with
  | nil =>
    intro b b2 hb h
    have h2 : some b = some b2 := h
    cases h2
    exact hb
  | cons a l ih =>
    intro b b2 hb h
    rw [List.foldlM_cons] at h
    cases hfa : f b a with
    | none =>
      rw [hfa] at h
      have h2 : (none : Option β) = some b2 := h
      cases h2
    | some bmid =>
      rw [hfa] at h
      have h2 : l.foldlM f bmid = some b2 := h
      exact ih bmid b2 (hstep b a bmid hb hfa) h2

/-- Length of a Python integer range. -/
lemma pyRange_length (a b : ℤ) : (pyRange a b).length = (b - a).toNat := by
  unfold pyRange
  rw [List.length_map, List.length_range]

/-- Shape of the placeholder grid. -/
lemma grid0_shape (number_rows number_columns : ℤ) :
    ((pyRange 1 (number_rows + 1)).map (fun row =>
      (pyRange 1 (number_columns + 1)).map (fun column =>
        placeholder_cell row column))).length = number_rows.toNat ∧
    ∀ rl ∈ (pyRange 1 (number_rows + 1)).map (fun row =>
      (pyRange 1 (number_columns + 1)).map (fun column => placeholder_cell row column)),
      rl.length = number_columns.toNat := by
  constructor
  · rw [List.length_map, pyRange_length]
    omega
  · intro rl hrl
    rcases List.mem_map.mp hrl with ⟨row, _, rfl⟩
    rw [List.length_map, pyRange_length]
    omega

/-- The flattening of a grid with constant row length. -/
lemma flatten_length_const {α : Type} {C : ℕ} :
    ∀ grid : List (List α), (∀ rl ∈ grid, rl.length = C) →
      grid.flatten.length = grid.length * C := by
  intro grid
  induction grid with
  | nil =>
    intro _
    simp
  | cons rl rest ih =>
    intro h
    rw [List.flatten_cons, List.length_append, ih (fun x hx => h x (List.mem_cons_of_mem rl hx)),
      h rl (by simp), List.length_cons]
    ring

/-- The fill succeeds when every cell's position fits the grid. -/
lemma fill_missing_success {cells : List CellRecord} {number_rows number_columns : ℤ}
    (hS : ∀ cell ∈ cells, 0 ≤ cell.row - 1 ∧ cell.row - 1 < ((number_rows.toNat : ℕ) : ℤ) ∧
      0 ≤ cell.column - 1 ∧ cell.column - 1 < ((number_columns.toNat : ℕ) : ℤ)) :
    ∃ out, fill_missing_cells_and_sort cells number_rows number_columns = some out := by
  by_cases hne : cells = []
  · subst hne
    exact ⟨[], rfl⟩
  · unfold fill_missing_cells_and_sort
    rw [if_neg hne]
    have hstep : ∀ (grid : List (List CellRecord)) (cell : CellRecord),
        (grid.length = number_rows.toNat ∧ ∀ rl ∈ grid, rl.length = number_columns.toNat) →
        (0 ≤ cell.row - 1 ∧ cell.row - 1 < ((number_rows.toNat : ℕ) : ℤ) ∧
          0 ≤ cell.column - 1 ∧ cell.column - 1 < ((number_columns.toNat : ℕ) : ℤ)) →
        ∃ grid2, fill_missing_step grid cell = some grid2 ∧
          (grid2.length = number_rows.toNat ∧
            ∀ rl ∈ grid2, rl.length = number_columns.toNat) := by
      intro grid cell hP hQ
      rcases fill_missing_step_succeeds hP.1 hP.2 hQ.1 hQ.2.1 hQ.2.2.1 hQ.2.2.2 with ⟨g2, hg2⟩
      rcases fill_missing_step_shape hP.2 hg2 with ⟨hl2, hr2⟩
      exact ⟨g2, hg2, by rw [hl2, hP.1], hr2⟩
    rcases foldlM_option_invariant fill_missing_step
      (fun grid => grid.length = number_rows.toNat ∧
        ∀ rl ∈ grid, rl.length = number_columns.toNat)
      (fun cell => 0 ≤ cell.row - 1 ∧ cell.row - 1 < ((number_rows.toNat : ℕ) : ℤ) ∧
        0 ≤ cell.column - 1 ∧ cell.column - 1 < ((number_columns.toNat : ℕ) : ℤ))
      hstep cells hS _
      ⟨(grid0_shape number_rows number_columns).1, (grid0_shape number_rows number_columns).2⟩
      with ⟨grid, hgrid, _⟩
    refine ⟨grid.flatten, ?_⟩
    show (cells.foldlM fill_missing_step _ >>= fun grid => some grid.flatten) = _
    rw [hgrid]
    rfl

/-- Shape facts recovered from a successful fill on nonempty cells. -/
lemma fill_missing_inv {cells : List CellRecord} {number_rows number_columns : ℤ}
    {out : List CellRecord} (hne : cells ≠ [])
    (h : fill_missing_cells_and_sort cells number_rows number_columns = some out) :
    out.length = number_rows.toNat * number_columns.toNat ∧
      0 < number_rows.toNat ∧ 0 < number_columns.toNat := by
  unfold fill_missing_cells_and_sort at h
  rw [if_neg hne] at h
  have h2 : (cells.foldlM fill_missing_step
      ((pyRange 1 (number_rows + 1)).map (fun row =>
        (pyRange 1 (number_columns + 1)).map (fun column => placeholder_cell row column)))
      >>= fun grid => some grid.flatten) = some out := h
  cases hf : cells.foldlM fill_missing_step
      ((pyRange 1 (number_rows + 1)).map (fun row =>
        (pyRange 1 (number_columns + 1)).map (fun column => placeholder_cell row column))) with
  | none =>
    rw [hf] at h2
    have h3 : (none : Option (List CellRecord)) = some out := h2
    cases h3
  | some grid =>
    rw [hf] at h2
    have h3 : some grid.flatten = some out := h2
    cases h3
    have hP := foldlM_option_preserves fill_missing_step
      (fun grid => grid.length = number_rows.toNat ∧
        ∀ rl ∈ grid, rl.length = number_columns.toNat)
      (fun grid cell grid2 hP hs => by
        rcases fill_missing_step_shape hP.2 hs with ⟨hl2, hr2⟩
        exact ⟨by rw [hl2, hP.1], hr2⟩)
      cells _ grid
      ⟨(grid0_shape number_rows number_columns).1, (grid0_shape number_rows number_columns).2⟩
      hf
    refine ⟨?_, ?_, ?_⟩
    · rw [flatten_length_const grid hP.2, hP.1]
    · rcases List.exists_cons_of_ne_nil hne with ⟨c, cs, rfl⟩
      rw [List.foldlM_cons] at hf
      cases hfc : fill_missing_step ((pyRange 1 (number_rows + 1)).map (fun row =>
          (pyRange 1 (number_columns + 1)).map (fun column => placeholder_cell row column))) c with
      | none =>
        rw [hfc] at hf
        have h4 : (none : Option (List (List CellRecord))) = some grid := hf
        cases h4
      | some g1 =>
        rcases fill_missing_step_some_iff.mp hfc with ⟨rl, rl2, hg, _, _⟩
        have := pyGet_pos hg
        rw [(grid0_shape number_rows number_columns).1] at this
        exact this
    · rcases List.exists_cons_of_ne_nil hne with ⟨c, cs, rfl⟩
      rw [List.foldlM_cons] at hf
      cases hfc : fill_missing_step ((pyRange 1 (number_rows + 1)).map (fun row =>
          (pyRange 1 (number_columns + 1)).map (fun column => placeholder_cell row column))) c with
      | none =>
        rw [hfc] at hf
        have h4 : (none : Option (List (List CellRecord))) = some grid := hf
        cases h4
      | some g1 =>
        rcases fill_missing_step_some_iff.mp hfc with ⟨rl, rl2, hg, hs, _⟩
        have hrlC : rl.length = number_columns.toNat :=
          (grid0_shape number_rows number_columns).2 rl (pyGet_mem hg)
        have := pySet_pos hs
        rw [hrlC] at this
        exact this

/-- A single degenerate cell whose four edges cluster into one canonical
grid line per axis. -/
def tiny_cell : TCell :=
  ⟨[0, 0, 1, 1]⟩

/-- C2 counterexample: on the syntactically valid one-cell input
`[{"coordinate": [0, 0, 1, 1]}]` both axes collapse to a single canonical
line, the reconstructed grid is 0 × 0, and the fill loop indexes an empty
grid — the reconstructor raises an IndexError (modelled by `none`) instead
of returning a result. -/
theorem C2_counterexample :
    create_custom_result_from_paddlex_cell_result [tiny_cell] [0, 0] = none := by
  decide

/-- C2 (amended): the reconstructor returns a `{rows, columns, cells}`
result on the empty cell list and on every cell list in which each cell's
snapped top-edge row-line index and left-edge column-line index lie
strictly below the last line index of their axis (so the cell's 1-based
position fits the `rows × columns` grid); on other syntactically valid
inputs the fill loop can raise. -/
theorem C2_amended (cell_boxes : List TCell) (coordinate : List ℚ)
    (h : ∀ box ∈ cell_boxes, ∃ ri ci : ℕ,
      find_line_index (pyInt (box.coordinate.getD 1 0)) (row_lines_of cell_boxes)
          = some ri ∧
        ri + 1 < (row_lines_of cell_boxes).length ∧
        find_line_index (pyInt (box.coordinate.getD 0 0)) (column_lines_of cell_boxes)
          = some ci ∧
        ci + 1 < (column_lines_of cell_boxes).length) :
    ∃ r, create_custom_result_from_paddlex_cell_result cell_boxes coordinate = some r := by
  by_cases hemp : cell_boxes.length = 0
  · refine ⟨{ rows := 0, columns := 0, cells := [] }, ?_⟩
    unfold create_custom_result_from_paddlex_cell_result
    rw [if_pos hemp]
  · rw [create_custom_eq cell_boxes coordinate hemp]
    have hmap := mapM_option_exists
      (cell_record_of_box (coordinate.getD 0 0) (coordinate.getD 1 0)
        (row_lines_of cell_boxes) (column_lines_of cell_boxes))
      (fun rec => 0 ≤ rec.row - 1 ∧
        rec.row - 1 < (((((row_lines_of cell_boxes).length : ℤ) - 1).toNat : ℕ) : ℤ) ∧
        0 ≤ rec.column - 1 ∧
        rec.column - 1 < (((((column_lines_of cell_boxes).length : ℤ) - 1).toNat : ℕ) : ℤ))
      cell_boxes ?_
    · rcases hmap with ⟨cwd, hcwd, _, hS⟩
      rcases fill_missing_success hS with ⟨out, hout⟩
      refine ⟨{ rows := ((row_lines_of cell_boxes).length : ℤ) - 1,
                columns := ((column_lines_of cell_boxes).length : ℤ) - 1,
                cells := out }, ?_⟩
      rw [hcwd]
      show Option.bind (fill_missing_cells_and_sort cwd
        (((row_lines_of cell_boxes).length : ℤ) - 1)
        (((column_lines_of cell_boxes).length : ℤ) - 1)) _ = _
      rw [hout]
      rfl
    · intro box hbox
      rcases h box hbox with ⟨ri, ci, h1, hr, h3, hc⟩
      have hrnn : row_lines_of cell_boxes ≠ [] := find_line_index_ne_nil h1
      have hcnn : column_lines_of cell_boxes ≠ [] := find_line_index_ne_nil h3
      rcases find_line_index_some (pyInt (box.coordinate.getD 3 0)) _ hrnn with ⟨rmax, h2, _⟩
      rcases find_line_index_some (pyInt (box.coordinate.getD 2 0)) _ hcnn with ⟨cmax, h4, _⟩
      refine ⟨_, cell_record_of_box_eq (coordinate.getD 0 0) (coordinate.getD 1 0)
        (row_lines_of cell_boxes) (column_lines_of cell_boxes) box h1 h2 h3 h4,
        ?_, ?_, ?_, ?_⟩
      · show (0 : ℤ) ≤ (ri : ℤ) + 1 - 1
        omega
      · show (ri : ℤ) + 1 - 1 < _
        omega
      · show (0 : ℤ) ≤ (ci : ℤ) + 1 - 1
        omega
      · show (ci : ℤ) + 1 - 1 < _
        omega

/-- One well-separated cell, for the `C2_amended` witness. -/
def unit_cell : TCell :=
  ⟨[0, 0, 9, 9]⟩

/-- Witness for `C2_amended` on a one-cell table with separated edges. -/
theorem C2_amended_witness :
    (∀ box ∈ [unit_cell], ∃ ri ci : ℕ,
      find_line_index (pyInt (box.coordinate.getD 1 0)) (row_lines_of [unit_cell])
          = some ri ∧
        ri + 1 < (row_lines_of [unit_cell]).length ∧
        find_line_index (pyInt (box.coordinate.getD 0 0)) (column_lines_of [unit_cell])
          = some ci ∧
        ci + 1 < (column_lines_of [unit_cell]).length) ∧
      ∃ r, create_custom_result_from_paddlex_cell_result [unit_cell] [0, 0] = some r := by
  have hhyp : ∀ box ∈ [unit_cell], ∃ ri ci : ℕ,
      find_line_index (pyInt (box.coordinate.getD 1 0)) (row_lines_of [unit_cell])
          = some ri ∧
        ri + 1 < (row_lines_of [unit_cell]).length ∧
        find_line_index (pyInt (box.coordinate.getD 0 0)) (column_lines_of [unit_cell])
          = some ci ∧
        ci + 1 < (column_lines_of [unit_cell]).length := by
    intro box hbox
    have hbe : box = unit_cell := by simpa using hbox
    subst hbe
    exact ⟨0, 0, by decide, by decide, by decide, by decide⟩
  exact ⟨hhyp, C2_amended [unit_cell] [0, 0] hhyp⟩

/-- C7: whenever the reconstructor returns a result on a non-empty cell
list, `rows` and `columns` are the canonical row/column line counts minus
one and the flattened cell list has exactly `rows * columns` entries. -/
theorem C7_grid_size_identity (cell_boxes : List TCell) (coordinate : List ℚ)
    (r : TableResult) (hne : cell_boxes ≠ [])
    (h : create_custom_result_from_paddlex_cell_result cell_boxes coordinate = some r) :
    r.rows = ((row_lines_of cell_boxes).length : ℤ) - 1 ∧
      r.columns = ((column_lines_of cell_boxes).length : ℤ) - 1 ∧
      (r.cells.length : ℤ) = r.rows * r.columns := by
  have hlen : cell_boxes.length ≠ 0 := fun h0 => hne (List.length_eq_zero.mp h0)
  rw [create_custom_eq cell_boxes coordinate hlen] at h
  cases hm : cell_boxes.mapM (cell_record_of_box (coordinate.getD 0 0) (coordinate.getD 1 0)
      (row_lines_of cell_boxes) (column_lines_of cell_boxes)) with
  | none =>
    rw [hm] at h
    have h2 : (none : Option TableResult) = some r := h
    cases h2
  | some cwd =>
    rw [hm] at h
    have h2 : Option.bind (fill_missing_cells_and_sort cwd
        (((row_lines_of cell_boxes).length : ℤ) - 1)
        (((column_lines_of cell_boxes).length : ℤ) - 1))
        (fun cells => some (TableResult.mk (((row_lines_of cell_boxes).length : ℤ) - 1)
          (((column_lines_of cell_boxes).length : ℤ) - 1) cells)) = some r := h
    cases hf : fill_missing_cells_and_sort cwd
        (((row_lines_of cell_boxes).length : ℤ) - 1)
        (((column_lines_of cell_boxes).length : ℤ) - 1) with
    | none =>
      rw [hf] at h2
      have h3 : (none : Option TableResult) = some r := h2
      cases h3
    | some cells =>
      rw [hf] at h2
      have h3 : some (TableResult.mk (((row_lines_of cell_boxes).length : ℤ) - 1)
          (((column_lines_of cell_boxes).length : ℤ) - 1) cells) = some r := h2
      cases h3
      have hcwdne : cwd ≠ [] := by
        have hl := mapM_option_length _ cell_boxes cwd hm
        intro h0
        subst h0
        exact hlen (by simpa using hl.symm)
      rcases fill_missing_inv hcwdne hf with ⟨hout, hR, hC⟩
      refine ⟨rfl, rfl, ?_⟩
      show ((cells.length : ℕ) : ℤ) = _
      rw [hout, Nat.cast_mul,
        Int.toNat_of_nonneg (by omega : (0 : ℤ) ≤ ((row_lines_of cell_boxes).length : ℤ) - 1),
        Int.toNat_of_nonneg (by omega : (0 : ℤ) ≤ ((column_lines_of cell_boxes).length : ℤ) - 1)]

/-- The spec's scenario-B 2 × 2 cell grid. -/
def grid4_cells : List TCell :=
  [⟨[0, 0, 50, 50]⟩, ⟨[50, 0, 100, 50]⟩, ⟨[0, 50, 50, 100]⟩, ⟨[50, 50, 100, 100]⟩]

/-- Witness for `C7_grid_size_identity` on the 2 × 2 grid. -/
theorem C7_witness :
    grid4_cells ≠ [] ∧
      create_custom_result_from_paddlex_cell_result grid4_cells [10, 20]
        = some ((create_custom_result_from_paddlex_cell_result grid4_cells [10, 20]).getD
          { rows := 0, columns := 0, cells := [] }) ∧
      (((create_custom_result_from_paddlex_cell_result grid4_cells [10, 20]).getD
            { rows := 0, columns := 0, cells := [] }).rows
          = ((row_lines_of grid4_cells).length : ℤ) - 1 ∧
        ((create_custom_result_from_paddlex_cell_result grid4_cells [10, 20]).getD
            { rows := 0, columns := 0, cells := [] }).columns
          = ((column_lines_of grid4_cells).length : ℤ) - 1 ∧
        ((((create_custom_result_from_paddlex_cell_result grid4_cells [10, 20]).getD
            { rows := 0, columns := 0, cells := [] }).cells.length : ℕ) : ℤ)
          = ((create_custom_result_from_paddlex_cell_result grid4_cells [10, 20]).getD
              { rows := 0, columns := 0, cells := [] }).rows *
            ((create_custom_result_from_paddlex_cell_result grid4_cells [10, 20]).getD
              { rows := 0, columns := 0, cells := [] }).columns) :=
  ⟨by decide, by decide,
    C7_grid_size_identity grid4_cells [10, 20] _ (by decide) (by decide)⟩
